import Mathlib

/-!
Verification of the multibody structural-constraint engine (SHARPy):
shallow embedding of `sharpy/structure/utils/lagrangeconstraints.py` and
`sharpy/utils/multibody.py`, together with theorems settling the frozen
claims about DOF addressing, constraint-equation assembly, block symmetry,
the rotation-axis row selection, error behaviour and the multibody merge.

Scalars are modelled as integers (`ℤ`): the Python code computes with IEEE
doubles, but none of the claimed properties depend on rounding — every
operation the claims touch is ring arithmetic and order comparison, valid
over any linearly ordered commutative ring (the embedding never divides),
and `ℤ` keeps every concrete witness computation kernel-executable.
Vectors and matrices are total maps `ℕ → ℤ` and
`ℕ → ℕ → ℤ`; numpy slice reads/writes become explicit ranged updates, and
in-range indexing is a caller contract (spec §4.1), carried as hypotheses
where a theorem needs it.
-/

/-- Scalars of the model (Python floats). -/
abbrev Scal := ℤ

/-- Vectors (numpy 1-d arrays) as total maps; entries outside the array's
actual length are irrelevant junk. -/
abbrev Vec := ℕ → Scal

/-- Matrices (numpy 2-d arrays) as total maps on row/column indices. -/
abbrev Mat := ℕ → ℕ → Scal

/-- The all-zeros matrix (`np.zeros`). -/
def zeroM : Mat := fun _ _ => 0

/-- The all-zeros vector. -/
def zeroV : Vec := fun _ => 0

/-- Matrix transpose (`np.transpose`). -/
def trM (M : Mat) : Mat := fun i j => M j i

/-- Scalar multiple of a matrix. -/
def smulM (a : Scal) (M : Mat) : Mat := fun i j => a * M i j

/-- Scalar multiple of a vector. -/
def smulV (a : Scal) (v : Vec) : Vec := fun i => a * v i

/-- Product of two matrices whose inner dimension is 3
(`algebra.multiply_matrices` on 3×3 blocks). -/
def matMul3 (A B : Mat) : Mat := fun i j => A i 0 * B 0 j + A i 1 * B 1 j + A i 2 * B 2 j

/-- Matrix–vector product with inner dimension 3 (`np.dot` on 3-blocks). -/
def matVec3 (A : Mat) (v : Vec) : Vec := fun i => A i 0 * v 0 + A i 1 * v 1 + A i 2 * v 2

/-- Row-vector–matrix product with inner dimension 3. -/
def vecMat3 (v : Vec) (A : Mat) : Vec := fun j => v 0 * A 0 j + v 1 * A 1 j + v 2 * A 2 j

/-- Dot product of two 3-vectors. -/
def dotV3 (v w : Vec) : Scal := v 0 * w 0 + v 1 * w 1 + v 2 * w 2

/-- `∑ k < n, f k` — used for the `Bnhᵀ · Λ̇` products whose inner dimension
is the constraint's own equation count. -/
def dotRange (n : ℕ) (f : ℕ → Scal) : Scal := ∑ k ∈ Finset.range n, f k

/-- In-place block ADD: `M[r:r+nr, c:c+nc] += B` (numpy `+=` on a slice). -/
def addB (M : Mat) (r c nr nc : ℕ) (B : Mat) : Mat := fun i j =>
  if r ≤ i ∧ i < r + nr ∧ c ≤ j ∧ j < c + nc then M i j + B (i - r) (j - c) else M i j

/-- In-place block SET: `M[r:r+nr, c:c+nc] = B` (numpy `=` on a slice). -/
def setB (M : Mat) (r c nr nc : ℕ) (B : Mat) : Mat := fun i j =>
  if r ≤ i ∧ i < r + nr ∧ c ≤ j ∧ j < c + nc then B (i - r) (j - c) else M i j

/-- In-place ranged vector add: `v[off:off+len] += w`. -/
def addV (v : Vec) (off len : ℕ) (w : Vec) : Vec := fun i =>
  if off ≤ i ∧ i < off + len then v i + w (i - off) else v i

/-- The 3×3 identity (`np.eye(3)`); entries outside the 3×3 block are zero. -/
def eye3 : Mat := fun i j => if i = j ∧ i < 3 then 1 else 0

/-- The 6×6 identity (`np.eye(6)`). -/
def eye6 : Mat := fun i j => if i = j ∧ i < 6 then 1 else 0

/-!  ## Data model (spec §3)

`Beam` carries the per-body structural description used by the constraint
library; `TStep` is `StructTimeStepInfo`: the per-body (or composite)
kinematic state at a time step.  Python lists of bodies are modelled as total
maps `ℕ → _`; all body/node/element indices used by the claims are in range
by the caller contract. -/

/-- `FoR_movement` tag of a body. -/
inductive Movement where
  | prescribed
  | free
deriving DecidableEq, Repr

/-- The slice of `Beam.ini_info` read by the constraint library. -/
structure IniInfo where
  pos : ℕ → Vec
  quat : Vec
  for_pos : Vec

/-- The slice of `Beam` read by the constraint library and the merge.
`vdof` is the vertex-DOF table (ordinal position of a node among the nodes
carrying DOFs); the source stores `-1` for clamped nodes, which are never the
target of a constraint (caller contract), so the model types it as `ℕ`.
`global_elems_num` / `global_nodes_num` are the element/node index sets of
the body inside the composite system. -/
structure Beam where
  num_dof : ℕ
  FoR_movement : Movement
  vdof : ℕ → ℕ
  node_master_elem : ℕ → ℕ × ℕ
  ini_info : IniInfo
  global_elems_num : List ℕ
  global_nodes_num : List ℕ

/-- The slice of `StructTimeStepInfo` used by the claims.  `qsize` is the
length of the state vectors `q`, `dqdt`, `dqddt` (`num_dof + 10` for a body,
total system DOFs + 10 for the composite); `nnodes` the number of rows of
`pos`.  The `mb_*` fields are the per-body frame database (rows indexed by
body). -/
structure TStep where
  pos : ℕ → Vec
  pos_dot : ℕ → Vec
  pos_ddot : ℕ → Vec
  psi : ℕ → ℕ → Vec
  psi_dot : ℕ → ℕ → Vec
  psi_ddot : ℕ → ℕ → Vec
  quat : Vec
  for_pos : Vec
  for_vel : Vec
  for_acc : Vec
  q : Vec
  dqdt : Vec
  dqddt : Vec
  qsize : ℕ
  nnodes : ℕ
  gravity_forces : ℕ → Vec
  forces_constraints_nodes : ℕ → Vec
  forces_constraints_FoR : ℕ → Vec
  mb_FoR_pos : ℕ → Vec
  mb_FoR_vel : ℕ → Vec
  mb_FoR_acc : ℕ → Vec
  mb_quat : ℕ → Vec
  mb_dquatdt : ℕ → Vec

/-- The external algebra library (`sharpy.utils.algebra`) is an excluded
collaborator (spec §1, §6): the constraint code only composes its outputs,
and every claimed property holds for arbitrary values of these primitives,
so they are abstract fields quantified over in the theorems.
`der_CquatT_by_v` and `der_Cquat_by_v` return 3×4 blocks; the rest 3×3. -/
structure Alg where
  quat2rotation : Vec → Mat
  crv2rotation : Vec → Mat
  crv2tan : Vec → Mat
  skew : Vec → Mat
  quat_bound : Vec → Vec
  der_CquatT_by_v : Vec → Vec → Mat
  der_Cquat_by_v : Vec → Vec → Mat
  der_CcrvT_by_v : Vec → Vec → Mat
  der_Ccrv_by_v : Vec → Vec → Mat
  der_TanT_by_xv : Vec → Vec → Mat

/-- Modelled from the spec: the skew / cross-product operator of the external
algebra library (`sharpy/utils/algebra.py` is not under `src/`; spec §4.2
describes its rows as "cross-product rows").  `crossSkew v * w = v × w`.
Used only to build concrete instantiations in witnesses/counterexamples. -/
def crossSkew (v : Vec) : Mat := fun i j =>
  if i = 0 ∧ j = 1 then -(v 2) else if i = 0 ∧ j = 2 then v 1
  else if i = 1 ∧ j = 0 then v 2 else if i = 1 ∧ j = 2 then -(v 0)
  else if i = 2 ∧ j = 0 then -(v 1) else if i = 2 ∧ j = 1 then v 0
  else 0

/-- A trivial instantiation of the algebra collaborator (every primitive
returns zero) for witnesses: the theorems hold for every `Alg`. -/
def zeroAlg : Alg where
  quat2rotation := fun _ => zeroM
  crv2rotation := fun _ => zeroM
  crv2tan := fun _ => zeroM
  skew := fun _ => zeroM
  quat_bound := fun v => v
  der_CquatT_by_v := fun _ _ => zeroM
  der_Cquat_by_v := fun _ _ => zeroM
  der_CcrvT_by_v := fun _ _ => zeroM
  der_Ccrv_by_v := fun _ _ => zeroM
  der_TanT_by_xv := fun _ _ => zeroM

/-!  ## DOF addressing (source `define_node_dof`, `define_FoR_dof`) -/

/-- `define_node_dof` (lagrangeconstraints.py:184-204): first DOF of node
`num_node` of body `node_body`; the source's `for ibody in range(node_body)`
accumulation is the fold below. -/
def define_node_dof (MB_beam : ℕ → Beam) (node_body num_node : ℕ) : ℕ :=
  (List.range node_body).foldl
    (fun node_dof ibody =>
      node_dof + (MB_beam ibody).num_dof +
        (if (MB_beam ibody).FoR_movement = Movement.free then 10 else 0)) 0
  + 6 * (MB_beam node_body).vdof num_node

/-- `define_FoR_dof` (lagrangeconstraints.py:206-226): first DOF of the frame
of reference of body `FoR_body`. -/
def define_FoR_dof (MB_beam : ℕ → Beam) (FoR_body : ℕ) : ℕ :=
  (List.range FoR_body).foldl
    (fun FoR_dof ibody =>
      FoR_dof + (MB_beam ibody).num_dof +
        (if (MB_beam ibody).FoR_movement = Movement.free then 10 else 0)) 0
  + (MB_beam FoR_body).num_dof

/-- The claim's closed form for the prefix offset of a body: the sum of
`num_dof` plus 10 per preceding free body. -/
def bodyPrefixSum (MB_beam : ℕ → Beam) (b : ℕ) : ℕ :=
  ∑ i ∈ Finset.range b,
    ((MB_beam i).num_dof + if (MB_beam i).FoR_movement = Movement.free then 10 else 0)

lemma foldl_range_eq_prefixSum (MB_beam : ℕ → Beam) (b : ℕ) (init : ℕ) :
    (List.range b).foldl
      (fun acc ibody =>
        acc + (MB_beam ibody).num_dof +
          (if (MB_beam ibody).FoR_movement = Movement.free then 10 else 0)) init
    = init + bodyPrefixSum MB_beam b := by
  induction b generalizing init with
  | zero => simp [bodyPrefixSum]
  | succ n ih =>
      rw [List.range_succ, List.foldl_append, ih]
      simp [bodyPrefixSum, Finset.sum_range_succ]
      ring

/-- C4: `define_node_dof` returns the prefix sum over all preceding bodies
(`num_dof`, plus 10 for each preceding free body) plus 6 times the target
node's ordinal position in the target body's vertex-DOF table, and
`define_FoR_dof` returns the same prefix sum plus the target body's own
`num_dof`. -/
theorem node_and_FoR_dof_eq_prefix_sum (MB_beam : ℕ → Beam) (b n : ℕ) :
    define_node_dof MB_beam b n = bodyPrefixSum MB_beam b + 6 * (MB_beam b).vdof n ∧
    define_FoR_dof MB_beam b = bodyPrefixSum MB_beam b + (MB_beam b).num_dof := by
  constructor
  · unfold define_node_dof
    rw [foldl_range_eq_prefixSum, Nat.zero_add]
  · unfold define_FoR_dof
    rw [foldl_range_eq_prefixSum, Nat.zero_add]

/-!  ## Constraint registry and initialisation (source §Basic structures)

Python's dynamic failures (KeyError on a missing registry entry, on a missing
parameter key, on a missing `constraint_%02d` entry) are modelled as an
`Except Err _`; the error constructors follow the spec's §7 taxonomy, each
tied to the source site that raises it. -/

/-- Error taxonomy (spec §7); each constructor corresponds to one KeyError
site in the source. -/
inductive Err where
  /-- `MBdict_entry[key]` with `key` absent in a constraint's `initialise`. -/
  | missingParameter (key : String)
  /-- `dict_of_lc[string]` with an unregistered constraint id
  (`lc_from_string`). -/
  | unknownConstraintKind (s : String)
  /-- `MBdict["constraint_%02d" % i]` with the entry absent
  (`initialize_constraints`). -/
  | missingEntry (i : ℕ)
  /-- the `assert` in `update_mb_dB_before_merge` ("Error in multibody
  storage"). -/
  | multibodyStorage
deriving DecidableEq, Repr

/-- The constraint kinds registered in `dict_of_lc` (one per
`@lagrangeconstraint` class, in source order). -/
inductive LCKind where
  | hinge_node_FoR
  | hinge_node_FoR_constant_vel
  | spherical_node_FoR
  | free
  | spherical_FoR
  | hinge_FoR
  | hinge_FoR_wrtG
  | fully_constrained_node_FoR
  | constant_rot_vel_FoR
  | constant_vel_FoR
  | lin_vel_node_wrtA
  | lin_vel_node_wrtG
deriving DecidableEq, Repr

/-- `_n_eq` of each kind (set in each class's `__init__`). -/
def n_eq : LCKind → ℕ
  | .hinge_node_FoR => 5
  | .hinge_node_FoR_constant_vel => 6
  | .spherical_node_FoR => 3
  | .free => 0
  | .spherical_FoR => 3
  | .hinge_FoR => 5
  | .hinge_FoR_wrtG => 5
  | .fully_constrained_node_FoR => 6
  | .constant_rot_vel_FoR => 3
  | .constant_vel_FoR => 6
  | .lin_vel_node_wrtA => 3
  | .lin_vel_node_wrtG => 3

/-- `self.required_parameters` of each class. -/
def required_parameters : LCKind → List String
  | .hinge_node_FoR => ["node_in_body", "body", "body_FoR", "rot_axisB"]
  | .hinge_node_FoR_constant_vel => ["node_in_body", "body", "body_FoR", "rot_axisB", "rot_vel"]
  | .spherical_node_FoR => ["node_in_body", "body", "body_FoR"]
  | .free => []
  | .spherical_FoR => ["body_FoR"]
  | .hinge_FoR => ["body_FoR", "rot_axis_AFoR"]
  | .hinge_FoR_wrtG => ["body_FoR", "rot_axis_AFoR"]
  | .fully_constrained_node_FoR => ["node_in_body", "body", "body_FoR"]
  | .constant_rot_vel_FoR => ["FoR_body", "rot_vel"]
  | .constant_vel_FoR => ["FoR_body", "vel"]
  | .lin_vel_node_wrtA => ["velocity", "body_number", "node_number"]
  | .lin_vel_node_wrtG => ["velocity", "body_number", "node_number"]

/-- The order in which each class's `initialise` reads `MBdict_entry[...]`
(the source read order; `constant_rot_vel_FoR` and `constant_vel_FoR` read in
a different order than their `required_parameters` list). -/
def paramReadOrder : LCKind → List String
  | .constant_rot_vel_FoR => ["rot_vel", "FoR_body"]
  | .constant_vel_FoR => ["vel", "FoR_body"]
  | k => required_parameters k

/-- `dict_of_lc`: the registry built by the `@lagrangeconstraint` decorator,
mapping `_lc_id` strings to classes, in class-definition order. -/
def dict_of_lc : List (String × LCKind) :=
  [("hinge_node_FoR", .hinge_node_FoR),
   ("hinge_node_FoR_constant_vel", .hinge_node_FoR_constant_vel),
   ("spherical_node_FoR", .spherical_node_FoR),
   ("free", .free),
   ("spherical_FoR", .spherical_FoR),
   ("hinge_FoR", .hinge_FoR),
   ("hinge_FoR_wrtG", .hinge_FoR_wrtG),
   ("fully_constrained_node_FoR", .fully_constrained_node_FoR),
   ("constant_rot_vel_FoR", .constant_rot_vel_FoR),
   ("constant_vel_FoR", .constant_vel_FoR),
   ("lin_vel_node_wrtA", .lin_vel_node_wrtA),
   ("lin_vel_node_wrtG", .lin_vel_node_wrtG)]

/-- `lc_from_string` (lagrangeconstraints.py:73-77): `dict_of_lc[string]`; a
missing key raises (spec §7: `UnknownConstraintKindError`). -/
def lc_from_string (s : String) : Except Err LCKind :=
  match dict_of_lc.lookup s with
  | some k => .ok k
  | none => .error (.unknownConstraintKind s)

/-- Values stored in a constraint's parameter dictionary.  `series` models a
2-d numpy velocity time history (rows indexed by step). -/
inductive PValue where
  | int (n : ℤ)
  | rat (q : Scal)
  | vec (v : Vec)
  | str (s : String)
  | series (f : ℕ → Vec)

/-- A constraint's entry of the multibody dictionary: a Python dict from
parameter name (including `behaviour`) to value. -/
abbrev Entry := String → Option PValue

/-- A constraint object right after `initialise`: its kind, the parameter
values read from the entry (in read order), the assigned first equation
index `_ieq`, and the `self.indep` row cache (`[]` ↦ `none`) of the
hinge-node kinds. -/
structure LCObj where
  kind : LCKind
  fields : List (String × PValue)
  ieq : ℕ
  indep : Option (ℕ × ℕ) := none

/-- Sequentially read the listed parameter keys from an entry; the first
absent key raises `MissingParameterError` (the source's KeyError on
`MBdict_entry[key]`). -/
def readParams (e : Entry) : List String → Except Err (List (String × PValue))
  | [] => .ok []
  | key :: rest =>
      match e key with
      | none => .error (.missingParameter key)
      | some v =>
          match readParams e rest with
          | .ok tail => .ok ((key, v) :: tail)
          | .error er => .error er

/-- `initialise` of a constraint class (dictionary level): read the class's
parameters from the entry, store the starting equation index, and return
`ieq + n_eq` (every class's `initialise` ends in
`return self._ieq + self._n_eq`). -/
def lc_initialise (k : LCKind) (e : Entry) (ieq : ℕ) : Except Err (LCObj × ℕ) :=
  match readParams e (paramReadOrder k) with
  | .error er => .error er
  | .ok fs => .ok ({ kind := k, fields := fs, ieq := ieq }, ieq + n_eq k)

/-- The multibody dictionary `MBdict` as far as the constraint library reads
it: `num_constraints` (a Python int, hence `ℤ`) and the
`constraint_%02d` entries, modelled by their index. -/
structure MBDict where
  num_constraints : ℤ
  entry : ℕ → Option Entry

/-- One iteration of the `initialize_constraints` loop body for index `i`:
look up `MBdict["constraint_%02d" % i]`, its `behaviour` string, the
registry class, and run `initialise`.  A non-string `behaviour` value would
also fail Python's registry lookup, hence the `unknownConstraintKind`
error for it. -/
def initStep (d : MBDict) (i : ℕ) (ieq : ℕ) : Except Err (LCObj × ℕ) :=
  match d.entry i with
  | none => .error (.missingEntry i)
  | some e =>
      match e "behaviour" with
      | none => .error (.missingParameter "behaviour")
      | some (.str s) =>
          match lc_from_string s with
          | .error er => .error er
          | .ok k => lc_initialise k e ieq
      | some _ => .error (.unknownConstraintKind "")

/-- The `for iconstraint in range(num_constraints)` loop of
`initialize_constraints`, threading `index_eq` and appending each created
constraint. -/
def initAux (d : MBDict) (idxs : List ℕ) (ieq : ℕ) : Except Err (ℕ × List LCObj) :=
  match idxs with
  | [] => .ok (ieq, [])
  | i :: rest =>
      match initStep d i ieq with
      | .error er => .error er
      | .ok (obj, ieq') =>
          match initAux d rest ieq' with
          | .error er => .error er
          | .ok (ieqF, objs) => .ok (ieqF, obj :: objs)

/-- `initialize_constraints` (lagrangeconstraints.py:1438-1449; the source
spells it with a z): scan the `num_constraints` entries left to right
starting at `index_eq = 0`, creating and initialising each constraint. -/
def initialise_constraints (d : MBDict) : Except Err (List LCObj) :=
  match initAux d (List.range d.num_constraints.toNat) 0 with
  | .error er => .error er
  | .ok (_, lc_list) => .ok lc_list

/-- `define_num_LM_eq` (lagrangeconstraints.py:1451-1475): sum of
`get_n_eq()` over the live constraints. -/
def define_num_LM_eq (lc_list : List LCObj) : ℕ :=
  lc_list.foldl (fun num lc => num + n_eq lc.kind) 0

/-- `remove_constraint` (lagrangeconstraints.py:1572-1584): `del` the entry
then decrement `num_constraints`, both inside a `try` whose `KeyError`
handler does nothing — so an absent key leaves the dictionary untouched. -/
def remove_constraint (d : MBDict) (i : ℕ) : MBDict :=
  if (d.entry i).isSome then
    { num_constraints := d.num_constraints - 1,
      entry := fun j => if j = i then none else d.entry j }
  else d

/-!  ## Equation-range bookkeeping lemmas -/

/-- Sum of `n_eq` over a list of constraint objects. -/
def sumNEq (l : List LCObj) : ℕ := (l.map fun o => n_eq o.kind).sum

/-- The equation ranges of `l` are the left-to-right scan starting at `c`:
the first constraint starts at `c`, and each next one starts where the
previous one ended. -/
def Scanned : ℕ → List LCObj → Prop
  | _, [] => True
  | c, o :: rest => o.ieq = c ∧ Scanned (c + n_eq o.kind) rest

/-- The kind named by the `behaviour` string of entry `i` of the dict. -/
def entryKind (d : MBDict) (i : ℕ) : Option LCKind :=
  match d.entry i with
  | some e =>
      match e "behaviour" with
      | some (.str s) => dict_of_lc.lookup s
      | _ => none
  | none => none

/-- Decidable well-formedness of a constraint's parameter dictionary: its
`behaviour` is a registered kind string and all parameter keys that kind
reads are present. -/
def entryOkE (e : Entry) : Bool :=
  match e "behaviour" with
  | some (.str s) =>
      match dict_of_lc.lookup s with
      | some k => (paramReadOrder k).all fun key => (e key).isSome
      | none => false
  | _ => false

/-- Decidable well-formedness of one dictionary entry: it exists and is
well-formed. -/
def entryOkB : Option Entry → Bool
  | none => false
  | some e => entryOkE e

lemma define_num_LM_eq_eq_sumNEq (l : List LCObj) : define_num_LM_eq l = sumNEq l := by
  have h : ∀ (l : List LCObj) (a : ℕ),
      l.foldl (fun num lc => num + n_eq lc.kind) a = a + sumNEq l := by
    intro l
    induction l with
    | nil => intro a; simp [sumNEq]
    | cons o rest ih => intro a; simp [sumNEq, ih] at *; omega
  simpa [define_num_LM_eq] using h l 0

lemma readParams_ok (e : Entry) (L : List String)
    (h : (L.all fun key => (e key).isSome) = true) :
    ∃ fs, readParams e L = .ok fs := by
  induction L with
  | nil => exact ⟨[], rfl⟩
  | cons key rest ih =>
      simp only [List.all_cons, Bool.and_eq_true] at h
      obtain ⟨v, hv⟩ := Option.isSome_iff_exists.mp h.1
      obtain ⟨fs, hfs⟩ := ih h.2
      exact ⟨(key, v) :: fs, by simp [readParams, hv, hfs]⟩

lemma readParams_missing (e : Entry) (L : List String) (key : String)
    (hmem : key ∈ L) (hnone : e key = none) :
    ∃ key', readParams e L = .error (.missingParameter key') := by
  induction L with
  | nil => simp at hmem
  | cons k0 rest ih =>
      by_cases h0 : e k0 = none
      · exact ⟨k0, by simp [readParams, h0]⟩
      · obtain ⟨v, hv⟩ := Option.ne_none_iff_exists'.mp h0
        have hk : key ∈ rest := by
          rcases List.mem_cons.mp hmem with h | h
          · exact absurd (h ▸ hnone) (h ▸ h0)
          · exact h
        obtain ⟨key', hkey'⟩ := ih hk
        exact ⟨key', by simp [readParams, hv, hkey']⟩

lemma initStep_ok (d : MBDict) (i c : ℕ) (h : entryOkB (d.entry i) = true) :
    ∃ obj, initStep d i c = .ok (obj, c + n_eq obj.kind) ∧ obj.ieq = c ∧
      entryKind d i = some obj.kind := by
  rcases he : d.entry i with _ | e
  · rw [he] at h; simp [entryOkB] at h
  · rw [he] at h
    have h' : entryOkE e = true := h
    unfold entryOkE at h'
    rcases hb : e "behaviour" with _ | v
    · rw [hb] at h'; exact Bool.noConfusion h'
    · rw [hb] at h'
      cases v with
      | str s =>
          have h'' : (match dict_of_lc.lookup s with
              | some k => (paramReadOrder k).all fun key => (e key).isSome
              | none => false) = true := h'
          rcases hk : dict_of_lc.lookup s with _ | k
          · rw [hk] at h''; exact Bool.noConfusion h''
          · rw [hk] at h''
            have hall : ((paramReadOrder k).all fun key => (e key).isSome) = true := h''
            obtain ⟨fs, hfs⟩ := readParams_ok e (paramReadOrder k) hall
            refine ⟨{ kind := k, fields := fs, ieq := c }, ?_, rfl, ?_⟩
            · simp [initStep, he, hb, lc_from_string, hk, lc_initialise, hfs]
            · simp [entryKind, he, hb, hk]
      | int n => exact Bool.noConfusion h'
      | rat q => exact Bool.noConfusion h'
      | vec v => exact Bool.noConfusion h'
      | series f => exact Bool.noConfusion h'

lemma initAux_ok (d : MBDict) (idxs : List ℕ) (c : ℕ)
    (h : (idxs.all fun i => entryOkB (d.entry i)) = true) :
    ∃ objs, initAux d idxs c = .ok (c + sumNEq objs, objs) ∧ Scanned c objs ∧
      List.Forall₂ (fun i (o : LCObj) => entryKind d i = some o.kind) idxs objs := by
  induction idxs generalizing c with
  | nil => exact ⟨[], by simp [initAux, sumNEq], trivial, List.Forall₂.nil⟩
  | cons i rest ih =>
      simp only [List.all_cons, Bool.and_eq_true] at h
      obtain ⟨obj, hstep, hieq, hkind⟩ := initStep_ok d i c h.1
      obtain ⟨objs, haux, hscan, hall⟩ := ih (c := c + n_eq obj.kind) h.2
      refine ⟨obj :: objs, ?_, ⟨hieq, hscan⟩, List.Forall₂.cons hkind hall⟩
      have hsum : c + n_eq obj.kind + sumNEq objs = c + sumNEq (obj :: objs) := by
        simp [sumNEq]; omega
      simp [initAux, hstep, haux, hsum]

lemma initAux_congr (d d' : MBDict) (idxs : List ℕ) (c : ℕ)
    (h : ∀ i ∈ idxs, d.entry i = d'.entry i) :
    initAux d idxs c = initAux d' idxs c := by
  induction idxs generalizing c with
  | nil => rfl
  | cons i rest ih =>
      have hstep : initStep d i c = initStep d' i c := by
        unfold initStep
        rw [h i (List.mem_cons_self i rest)]
      have hrest : ∀ j ∈ rest, d.entry j = d'.entry j :=
        fun j hj => h j (List.mem_cons_of_mem i hj)
      unfold initAux
      rw [hstep]
      cases initStep d' i c with
      | error er => rfl
      | ok r =>
          obtain ⟨obj, ieq'⟩ := r
          dsimp only
          rw [ih ieq' hrest]

lemma initAux_nil (d : MBDict) (c : ℕ) : initAux d [] c = .ok (c, []) := rfl

lemma initAux_cons (d : MBDict) (i : ℕ) (rest : List ℕ) (c : ℕ) :
    initAux d (i :: rest) c =
      match initStep d i c with
      | .error er => .error er
      | .ok (obj, ieq') =>
          match initAux d rest ieq' with
          | .error er => .error er
          | .ok (ieqF, objs) => .ok (ieqF, obj :: objs) := rfl

lemma initAux_append (d : MBDict) (l1 l2 : List ℕ) (c : ℕ) :
    initAux d (l1 ++ l2) c =
      match initAux d l1 c with
      | .error er => .error er
      | .ok (c1, o1) =>
          match initAux d l2 c1 with
          | .error er => .error er
          | .ok (c2, o2) => .ok (c2, o1 ++ o2) := by
  induction l1 generalizing c with
  | nil =>
      rw [List.nil_append, initAux_nil]
      dsimp only
      cases h2 : initAux d l2 c with
      | error er => rfl
      | ok r => obtain ⟨c2, o2⟩ := r; simp
  | cons i rest ih =>
      rw [List.cons_append, initAux_cons, initAux_cons]
      cases hs : initStep d i c with
      | error er => rfl
      | ok r =>
          obtain ⟨obj, ieq'⟩ := r
          dsimp only
          rw [ih ieq']
          cases h1 : initAux d rest ieq' with
          | error er => rfl
          | ok r1 =>
              obtain ⟨c1, o1⟩ := r1
              dsimp only
              cases h2 : initAux d l2 c1 with
              | error er => rfl
              | ok r2 =>
                  obtain ⟨c2, o2⟩ := r2
                  simp

lemma sumNEq_append (l1 l2 : List LCObj) : sumNEq (l1 ++ l2) = sumNEq l1 + sumNEq l2 := by
  simp [sumNEq]

lemma sumNEq_take_le (l : List LCObj) (m : ℕ) : sumNEq (l.take m) ≤ sumNEq l := by
  conv_rhs => rw [← List.take_append_drop m l]
  rw [sumNEq_append]
  omega

lemma scanned_get (c : ℕ) (l : List LCObj) (hs : Scanned c l) :
    ∀ (j : ℕ) (h : j < l.length), (l.get ⟨j, h⟩).ieq = c + sumNEq (l.take j) := by
  induction l generalizing c with
  | nil => intro j h; simp at h
  | cons o rest ih =>
      intro j h
      cases j with
      | zero => simpa [sumNEq] using hs.1
      | succ j =>
          have := ih (c + n_eq o.kind) hs.2 j (by simpa using Nat.lt_of_succ_lt_succ h)
          simp only [List.get_cons_succ, List.take_succ_cons] at this ⊢
          rw [this]
          simp [sumNEq]
          omega

lemma sumNEq_take_succ (l : List LCObj) (j : ℕ) (h : j < l.length) :
    sumNEq (l.take (j + 1)) = sumNEq (l.take j) + n_eq (l.get ⟨j, h⟩).kind := by
  have hsplit : l.take (j + 1) = l.take j ++ [l.get ⟨j, h⟩] := by
    rw [List.take_succ, List.getElem?_eq_getElem h]
    simp [List.get_eq_getElem]
  rw [hsplit, sumNEq_append]
  simp [sumNEq]

lemma scanned_disjoint (c : ℕ) (l : List LCObj) (hs : Scanned c l) :
    ∀ (j1 j2 : ℕ) (h1 : j1 < l.length) (h2 : j2 < l.length), j1 < j2 →
      (l.get ⟨j1, h1⟩).ieq + n_eq (l.get ⟨j1, h1⟩).kind ≤ (l.get ⟨j2, h2⟩).ieq := by
  intro j1 j2 h1 h2 hlt
  rw [scanned_get c l hs j1 h1, scanned_get c l hs j2 h2]
  have e1 : sumNEq (l.take j1) + n_eq (l.get ⟨j1, h1⟩).kind = sumNEq (l.take (j1 + 1)) :=
    (sumNEq_take_succ l j1 h1).symm
  have e2 : sumNEq (l.take (j1 + 1)) ≤ sumNEq (l.take j2) := by
    have : l.take (j1 + 1) = (l.take j2).take (j1 + 1) := by
      rw [List.take_take, min_eq_left (by omega)]
    rw [this]
    exact sumNEq_take_le _ _
  omega

lemma scanned_bounds (c : ℕ) (l : List LCObj) (hs : Scanned c l) :
    ∀ (j : ℕ) (h : j < l.length),
      c ≤ (l.get ⟨j, h⟩).ieq ∧
      (l.get ⟨j, h⟩).ieq + n_eq (l.get ⟨j, h⟩).kind ≤ c + sumNEq l := by
  intro j h
  rw [scanned_get c l hs j h]
  constructor
  · omega
  · have := sumNEq_take_succ l j h
    have := sumNEq_take_le l (j + 1)
    omega

lemma scanned_cover (c : ℕ) (l : List LCObj) (hs : Scanned c l) :
    ∀ m, c ≤ m → m < c + sumNEq l →
      ∃ (j : ℕ) (h : j < l.length),
        (l.get ⟨j, h⟩).ieq ≤ m ∧ m < (l.get ⟨j, h⟩).ieq + n_eq (l.get ⟨j, h⟩).kind := by
  induction l generalizing c with
  | nil => intro m h1 h2; exfalso; simp [sumNEq] at h2; omega
  | cons o rest ih =>
      intro m h1 h2
      by_cases hm : m < c + n_eq o.kind
      · refine ⟨0, by simp, ?_, ?_⟩
        · have h0 : ((o :: rest).get ⟨0, by simp⟩) = o := rfl
          rw [h0, hs.1]; omega
        · have h0 : ((o :: rest).get ⟨0, by simp⟩) = o := rfl
          rw [h0, hs.1]; omega
      · have h2' : m < c + n_eq o.kind + sumNEq rest := by
          simp only [sumNEq, List.map_cons, List.sum_cons] at h2 ⊢
          omega
        obtain ⟨j, hj, hlo, hhi⟩ := ih (c + n_eq o.kind) hs.2 m (by omega) h2'
        exact ⟨j + 1, by simpa using Nat.succ_lt_succ hj, by simpa using hlo,
          by simpa using hhi⟩

/-!  ## Concrete dictionaries for witnesses and counterexamples -/

/-- A well-formed two-constraint specification: a `spherical_FoR` followed by
a `constant_vel_FoR`, each with its required parameters. -/
def wfDict : MBDict where
  num_constraints := 2
  entry := fun i =>
    if i = 0 then
      some (fun key =>
        if key = "behaviour" then some (.str "spherical_FoR")
        else if key = "body_FoR" then some (.int 1) else none)
    else if i = 1 then
      some (fun key =>
        if key = "behaviour" then some (.str "constant_vel_FoR")
        else if key = "FoR_body" then some (.int 1)
        else if key = "vel" then some (.vec zeroV) else none)
    else none

/-- A one-constraint specification naming a known kind
(`hinge_node_FoR`) but carrying none of its required parameters. -/
def badDict : MBDict where
  num_constraints := 1
  entry := fun i =>
    if i = 0 then
      some (fun key => if key = "behaviour" then some (.str "hinge_node_FoR") else none)
    else none

/-- A well-formed `spherical_FoR` entry. -/
def entSph : Entry := fun key =>
  if key = "behaviour" then some (.str "spherical_FoR")
  else if key = "body_FoR" then some (.int 1) else none

/-- Two identical `spherical_FoR` constraints. -/
def twoConstraintDict : MBDict where
  num_constraints := 2
  entry := fun i => if i < 2 then some entSph else none

/-- C1 (amended: entries must also carry their kinds' required parameters;
see the counterexample): for a specification whose entries all name known
kinds and supply the required parameters, `initialize_constraints` assigns
equation ranges by a single left-to-right scan starting at 0 in declaration
order, each `initialise` call returns `ieq + n_eq`, the assigned ranges are
pairwise disjoint, and their union is `[0, N)` with
`N = define_num_LM_eq lc_list`. -/
theorem initialise_constraints_partition (d : MBDict)
    (hw : ((List.range d.num_constraints.toNat).all fun i => entryOkB (d.entry i)) = true) :
    ∃ lcs, initialise_constraints d = .ok lcs ∧
      lcs.length = d.num_constraints.toNat ∧
      (∀ (k : LCKind) (e : Entry) (i : ℕ) (obj : LCObj) (i2 : ℕ),
        lc_initialise k e i = .ok (obj, i2) → i2 = i + n_eq k ∧ obj.ieq = i) ∧
      Scanned 0 lcs ∧
      (∀ (j1 j2 : ℕ) (h1 : j1 < lcs.length) (h2 : j2 < lcs.length), j1 ≠ j2 →
        ∀ m, ¬((lcs.get ⟨j1, h1⟩).ieq ≤ m ∧
                m < (lcs.get ⟨j1, h1⟩).ieq + n_eq (lcs.get ⟨j1, h1⟩).kind ∧
                (lcs.get ⟨j2, h2⟩).ieq ≤ m ∧
                m < (lcs.get ⟨j2, h2⟩).ieq + n_eq (lcs.get ⟨j2, h2⟩).kind)) ∧
      (∀ m, m < define_num_LM_eq lcs ↔
        ∃ (j : ℕ) (h : j < lcs.length),
          (lcs.get ⟨j, h⟩).ieq ≤ m ∧
          m < (lcs.get ⟨j, h⟩).ieq + n_eq (lcs.get ⟨j, h⟩).kind) := by
  obtain ⟨objs, haux, hscan, hall⟩ :=
    initAux_ok d (List.range d.num_constraints.toNat) 0 hw
  refine ⟨objs, ?_, ?_, ?_, hscan, ?_, ?_⟩
  · simp [initialise_constraints, haux]
  · rw [← hall.length_eq, List.length_range]
  · intro k e i obj i2 hok
    unfold lc_initialise at hok
    cases hr : readParams e (paramReadOrder k) with
    | error er => rw [hr] at hok; exact Except.noConfusion hok
    | ok fs =>
        rw [hr] at hok
        injection hok with h1
        injection h1 with h1 h2
        exact ⟨h2.symm, by rw [← h1]⟩
  · intro j1 j2 h1 h2 hne m hcontra
    obtain ⟨ha1, hb1, ha2, hb2⟩ := hcontra
    rcases Nat.lt_or_ge j1 j2 with hlt | hge
    · have := scanned_disjoint 0 objs hscan j1 j2 h1 h2 hlt
      omega
    · have hlt : j2 < j1 := by omega
      have := scanned_disjoint 0 objs hscan j2 j1 h2 h1 hlt
      omega
  · intro m
    rw [define_num_LM_eq_eq_sumNEq]
    constructor
    · intro hm
      exact scanned_cover 0 objs hscan m (Nat.zero_le m) (by omega)
    · rintro ⟨j, h, hlo, hhi⟩
      have := (scanned_bounds 0 objs hscan j h).2
      omega

/-- C1 witness: the amended theorem applied to the concrete well-formed
two-constraint specification `wfDict`. -/
theorem initialise_constraints_partition_witness :
    (((List.range wfDict.num_constraints.toNat).all fun i => entryOkB (wfDict.entry i)) = true) ∧
    (∃ lcs, initialise_constraints wfDict = .ok lcs ∧
      lcs.length = wfDict.num_constraints.toNat ∧
      (∀ (k : LCKind) (e : Entry) (i : ℕ) (obj : LCObj) (i2 : ℕ),
        lc_initialise k e i = .ok (obj, i2) → i2 = i + n_eq k ∧ obj.ieq = i) ∧
      Scanned 0 lcs ∧
      (∀ (j1 j2 : ℕ) (h1 : j1 < lcs.length) (h2 : j2 < lcs.length), j1 ≠ j2 →
        ∀ m, ¬((lcs.get ⟨j1, h1⟩).ieq ≤ m ∧
                m < (lcs.get ⟨j1, h1⟩).ieq + n_eq (lcs.get ⟨j1, h1⟩).kind ∧
                (lcs.get ⟨j2, h2⟩).ieq ≤ m ∧
                m < (lcs.get ⟨j2, h2⟩).ieq + n_eq (lcs.get ⟨j2, h2⟩).kind)) ∧
      (∀ m, m < define_num_LM_eq lcs ↔
        ∃ (j : ℕ) (h : j < lcs.length),
          (lcs.get ⟨j, h⟩).ieq ≤ m ∧
          m < (lcs.get ⟨j, h⟩).ieq + n_eq (lcs.get ⟨j, h⟩).kind)) :=
  ⟨by decide, initialise_constraints_partition wfDict (by decide)⟩

/-- C1 counterexample: `badDict`'s single entry names the known kind
`hinge_node_FoR`, yet `initialize_constraints` raises (a required parameter
is absent) and assigns no equation range at all — naming known kinds alone
does not make the scan run to completion. -/
theorem initialise_constraints_known_kinds_not_sufficient :
    (∀ i, i < badDict.num_constraints.toNat →
      entryKind badDict i = some LCKind.hinge_node_FoR) ∧
    initialise_constraints badDict = .error (.missingParameter "node_in_body") ∧
    ∀ lcs, ¬ initialise_constraints badDict = .ok lcs := by
  refine ⟨?_, rfl, ?_⟩
  · intro i hi
    have hi0 : i = 0 := by
      have : badDict.num_constraints.toNat = 1 := rfl
      omega
    subst hi0
    rfl
  · intro lcs hcontra
    rw [show initialise_constraints badDict = .error (.missingParameter "node_in_body")
        from rfl] at hcontra
    exact Except.noConfusion hcontra

/-- C6: for every constraint kind, `initialise` on a parameter dictionary
lacking one of that kind's required parameter keys fails with
`MissingParameterError`, and looking up an unregistered kind string fails
with `UnknownConstraintKindError`. -/
theorem initialise_missing_parameter_and_unknown_kind :
    (∀ (k : LCKind) (key : String), key ∈ required_parameters k →
      ∀ (e : Entry), e key = none → ∀ i : ℕ,
        ∃ key', lc_initialise k e i = .error (.missingParameter key')) ∧
    (∀ s : String, dict_of_lc.lookup s = none →
      lc_from_string s = .error (.unknownConstraintKind s)) := by
  constructor
  · intro k key hmem e hnone i
    have hmem' : key ∈ paramReadOrder k := by
      cases k <;> simp [paramReadOrder, required_parameters] at hmem ⊢ <;> tauto
    obtain ⟨key', hk⟩ := readParams_missing e (paramReadOrder k) key hmem' hnone
    exact ⟨key', by simp [lc_initialise, hk]⟩
  · intro s hs
    simp [lc_from_string, hs]

/-- An entry for `hinge_node_FoR` that lacks the required `rot_axisB`. -/
def missingE : Entry := fun key => if key = "rot_axisB" then none else some (.int 0)

/-- C6 witness: the theorem applied to `hinge_node_FoR` lacking `rot_axisB`
and to the unregistered kind string `"nonexistent_kind"`. -/
theorem initialise_missing_parameter_and_unknown_kind_witness :
    ("rot_axisB" ∈ required_parameters LCKind.hinge_node_FoR ∧
      missingE "rot_axisB" = none ∧
      dict_of_lc.lookup "nonexistent_kind" = none) ∧
    (∃ key', lc_initialise LCKind.hinge_node_FoR missingE 0 =
        .error (.missingParameter key')) ∧
    lc_from_string "nonexistent_kind" = .error (.unknownConstraintKind "nonexistent_kind") :=
  ⟨⟨by decide, rfl, rfl⟩,
   initialise_missing_parameter_and_unknown_kind.1
     LCKind.hinge_node_FoR "rot_axisB" (by decide) missingE rfl 0,
   initialise_missing_parameter_and_unknown_kind.2 "nonexistent_kind" rfl⟩

/-- C10: removing a key that is not present leaves the dictionary entirely
unchanged (in particular `num_constraints` is not decremented) and raises no
error: the failed `del` is caught and silently ignored before the decrement
is reached. -/
theorem remove_constraint_missing_key_noop (d : MBDict) (i : ℕ)
    (h : d.entry i = none) : remove_constraint d i = d := by
  unfold remove_constraint
  rw [h]
  simp

/-- C10 witness: removing the absent entry 5 from `badDict` is the
identity. -/
theorem remove_constraint_missing_key_noop_witness :
    badDict.entry 5 = none ∧ remove_constraint badDict 5 = badDict :=
  ⟨rfl, remove_constraint_missing_key_noop badDict 5 rfl⟩

/-- C9 counterexample: `twoConstraintDict` holds constraints 0 and 1;
removing constraint 0 (present, `n_eq = 3`) does decrement
`num_constraints`, but the next `initialize_constraints` call fails (the
scan still starts at `constraint_00`, which is gone) instead of producing a
multiplier block smaller by 3. -/
theorem remove_non_last_breaks_reinit :
    (twoConstraintDict.entry 0).isSome = true ∧
    (remove_constraint twoConstraintDict 0).num_constraints =
      twoConstraintDict.num_constraints - 1 ∧
    initialise_constraints (remove_constraint twoConstraintDict 0) =
      .error (.missingEntry 0) ∧
    ∀ lcs, ¬ initialise_constraints (remove_constraint twoConstraintDict 0) = .ok lcs := by
  refine ⟨rfl, rfl, rfl, ?_⟩
  intro lcs hcontra
  rw [show initialise_constraints (remove_constraint twoConstraintDict 0) =
      .error (.missingEntry 0) from rfl] at hcontra
  exact Except.noConfusion hcontra

/-- C9 (amended: holds when the removed key is the highest-indexed
constraint; see the counterexample for a non-last key): removing the last
constraint of a well-formed specification decrements `num_constraints` by
exactly 1, deletes its entry, and the next `initialize_constraints` call
produces a multiplier block smaller by exactly that constraint's `n_eq`. -/
theorem remove_last_constraint_shrinks (d : MBDict) (n : ℕ)
    (hn : d.num_constraints = (n : ℤ) + 1)
    (hw : ((List.range (n + 1)).all fun i => entryOkB (d.entry i)) = true) :
    (remove_constraint d n).num_constraints = d.num_constraints - 1 ∧
    (remove_constraint d n).entry n = none ∧
    ∃ lcs lcs' kn, initialise_constraints d = .ok lcs ∧
      initialise_constraints (remove_constraint d n) = .ok lcs' ∧
      entryKind d n = some kn ∧
      define_num_LM_eq lcs = define_num_LM_eq lcs' + n_eq kn := by
  have hwn : entryOkB (d.entry n) = true := by
    rw [List.all_eq_true] at hw
    exact hw n (List.mem_range.mpr (by omega))
  have hsome : (d.entry n).isSome = true := by
    cases he : d.entry n with
    | none => rw [he] at hwn; exact Bool.noConfusion hwn
    | some e => rfl
  have hrem : remove_constraint d n =
      { num_constraints := d.num_constraints - 1,
        entry := fun j => if j = n then none else d.entry j } := by
    unfold remove_constraint
    rw [if_pos hsome]
  have htoNat : d.num_constraints.toNat = n + 1 := by
    rw [hn]; omega
  have htoNat' : (remove_constraint d n).num_constraints.toNat = n := by
    rw [hrem]; simp only []; rw [hn]; omega
  -- the two runs agree on the first n entries
  have hwfront : ((List.range n).all fun i => entryOkB (d.entry i)) = true := by
    rw [List.all_eq_true] at hw ⊢
    intro i hi
    exact hw i (List.mem_range.mpr (by have := List.mem_range.mp hi; omega))
  obtain ⟨front, hauxf, hscanf, hallf⟩ := initAux_ok d (List.range n) 0 hwfront
  obtain ⟨obj, hstep, hieq, hkind⟩ := initStep_ok d n (0 + sumNEq front) hwn
  -- full run on d : process range n then the last index n
  have hfull : initAux d (List.range (n + 1)) 0 =
      .ok (0 + sumNEq front + n_eq obj.kind, front ++ [obj]) := by
    rw [List.range_succ, initAux_append, hauxf]
    dsimp only
    rw [initAux_cons, hstep]
    dsimp only
    rw [initAux_nil]
  have hinitd : initialise_constraints d = .ok (front ++ [obj]) := by
    unfold initialise_constraints
    rw [htoNat, hfull]
  -- run on the shrunk dictionary
  have hagree : ∀ i ∈ List.range n,
      (remove_constraint d n).entry i = d.entry i := by
    intro i hi
    rw [hrem]
    simp only []
    rw [if_neg (by have := List.mem_range.mp hi; omega)]
  have hinitd' : initialise_constraints (remove_constraint d n) = .ok front := by
    unfold initialise_constraints
    rw [htoNat', initAux_congr (remove_constraint d n) d (List.range n) 0 hagree, hauxf]
  refine ⟨by rw [hrem], by rw [hrem]; simp, front ++ [obj], front, obj.kind,
    hinitd, hinitd', hkind, ?_⟩
  rw [define_num_LM_eq_eq_sumNEq, define_num_LM_eq_eq_sumNEq, sumNEq_append]
  simp [sumNEq]

/-- C9 witness: the amended theorem applied to `wfDict` (two constraints,
removing the last one, a `constant_vel_FoR` with `n_eq = 6`). -/
theorem remove_last_constraint_shrinks_witness :
    (wfDict.num_constraints = (1 : ℤ) + 1 ∧
      ((List.range (1 + 1)).all fun i => entryOkB (wfDict.entry i)) = true) ∧
    ((remove_constraint wfDict 1).num_constraints = wfDict.num_constraints - 1 ∧
      (remove_constraint wfDict 1).entry 1 = none ∧
      ∃ lcs lcs' kn, initialise_constraints wfDict = .ok lcs ∧
        initialise_constraints (remove_constraint wfDict 1) = .ok lcs' ∧
        entryKind wfDict 1 = some kn ∧
        define_num_LM_eq lcs = define_num_LM_eq lcs' + n_eq kn) :=
  ⟨⟨by decide, by decide⟩, remove_last_constraint_shrinks wfDict 1 (by decide) (by decide)⟩

/-!  ## Equations (source §Equations): the three elementary kernels

The global matrices are carried as one record; each kernel mirrors the
source's in-place writes in source order and returns the advanced `ieq`. -/

/-- The global damping matrix `LM_C`, stiffness matrix `LM_K` and
independent-term vector `LM_Q`. -/
structure LMState where
  C : Mat
  K : Mat
  Q : Vec

/-- `equal_lin_vel_node_FoR` (lagrangeconstraints.py:232-292): equal linear
velocity between a node and a FoR; 3 equations. -/
def equal_lin_vel_node_FoR (A : Alg) (MB_tstep : ℕ → TStep) (MB_beam : ℕ → Beam)
    (FoR_body node_body node_number node_FoR_dof node_dof FoR_dof sys_size : ℕ)
    (Lambda_dot : Vec) (scalingFactor _penaltyFactor : Scal) (ieq : ℕ)
    (S : LMState) : LMState × ℕ :=
  let CF := A.quat2rotation (MB_tstep FoR_body).quat
  let Cn := A.quat2rotation (MB_tstep node_body).quat
  let sLd : Vec := fun k => scalingFactor * Lambda_dot (ieq + k)
  let Bnh0 := setB zeroM 0 FoR_dof 3 3 CF
  let Bnh1 := setB Bnh0 0 node_dof 3 3 (smulM (-1) Cn)
  let Bnh :=
    if (MB_beam node_body).FoR_movement = Movement.free then
      setB (setB Bnh1 0 node_FoR_dof 3 3 (smulM (-1) Cn)) 0 (node_FoR_dof + 3) 3 3
        (smulM 1 (matMul3 Cn (A.skew ((MB_tstep node_body).pos node_number))))
    else Bnh1
  let C1 := addB S.C (sys_size + ieq) 0 3 sys_size (smulM scalingFactor Bnh)
  let C2 := addB C1 0 (sys_size + ieq) sys_size 3 (smulM scalingFactor (trM Bnh))
  let Q1 := addV S.Q 0 sys_size
    (fun i => scalingFactor * dotRange 3 (fun k => Bnh k i * Lambda_dot (ieq + k)))
  let Q2 := addV Q1 (sys_size + ieq) 3 (fun i =>
    matVec3 CF (MB_tstep FoR_body).for_vel i +
    (-1) * matVec3 Cn (fun c =>
      (MB_tstep node_body).pos_dot node_number c + (MB_tstep node_body).for_vel c +
      (-1) * matVec3 (A.skew ((MB_tstep node_body).pos node_number))
        (fun c2 => (MB_tstep node_body).for_vel (3 + c2)) c) i)
  let C3 := addB C2 FoR_dof (FoR_dof + 6) 3 4
    (A.der_CquatT_by_v (MB_tstep FoR_body).quat sLd)
  if (MB_beam node_body).FoR_movement = Movement.free then
    let C4 := addB C3 node_dof (node_FoR_dof + 6) 3 4
      (smulM (-1) (A.der_CquatT_by_v (MB_tstep node_body).quat sLd))
    let C5 := addB C4 node_FoR_dof (node_FoR_dof + 6) 3 4
      (smulM (-1) (A.der_CquatT_by_v (MB_tstep node_body).quat sLd))
    let C6 := addB C5 (node_FoR_dof + 3) (node_FoR_dof + 6) 3 4
      (smulM (-1) (matMul3 (A.skew ((MB_tstep node_body).pos node_number))
        (A.der_CquatT_by_v (MB_tstep node_body).quat sLd)))
    let K1 := addB S.K (node_FoR_dof + 3) node_dof 3 3
      (A.skew (matVec3 (trM Cn) (fun k => Lambda_dot (ieq + k))))
    ({ C := C6, K := K1, Q := Q2 }, ieq + 3)
  else
    ({ C := C3, K := S.K, Q := Q2 }, ieq + 3)

/-- Squared Euclidean norm of row `r` of a matrix.  The source compares
`np.linalg.norm` values; `x ↦ √x` is strictly monotone on nonnegatives, so
comparing squared norms reproduces every comparison (and every tie) of the
source exactly while staying executable. -/
def rowNormSq (M : Mat) (r : ℕ) : Scal := M r 0 * M r 0 + M r 1 * M r 1 + M r 2 * M r 2

/-- The independent-row-pair selection shared by
`def_rot_axis_FoR_wrt_node` (lines 332-347) and the `hinge_FoR` /
`hinge_FoR_wrtG` bodies (lines 841-853, 929-941), which duplicate the same
logic: drop the row of strictly smallest norm.  When no row is strictly
smallest (a tie), none of the three branches fires: `indep` stays empty /
`row0`,`row1` stay unbound, and the source crashes on first use — modelled
as `none`. -/
def indepRows (M : Mat) : Option (ℕ × ℕ) :=
  let n0 := rowNormSq M 0
  let n1 := rowNormSq M 1
  let n2 := rowNormSq M 2
  if n0 < n1 ∧ n0 < n2 then some (1, 2)
  else if n1 < n0 ∧ n1 < n2 then some (0, 2)
  else if n2 < n0 ∧ n2 < n1 then some (0, 1)
  else none

/-- The 4-factor product
`skew(rot_axisB) · crv2rotation(psi)ᵀ · quat2rotation(node quat)ᵀ ·
quat2rotation(FoR quat)` that `def_rot_axis_FoR_wrt_node` writes three times
(`aux_Bnh` for the selection, the `Bnh` rows, and the residual). -/
def rotAxisProd (A : Alg) (MB_tstep : ℕ → TStep) (MB_beam : ℕ → Beam)
    (FoR_body node_body node_number : ℕ) (rot_axisB : Vec) : Mat :=
  let ielem := ((MB_beam node_body).node_master_elem node_number).1
  let inode := ((MB_beam node_body).node_master_elem node_number).2
  let psi := (MB_tstep node_body).psi ielem inode
  matMul3 (matMul3 (matMul3 (A.skew rot_axisB)
      (trM (A.crv2rotation psi))) (trM (A.quat2rotation (MB_tstep node_body).quat)))
      (A.quat2rotation (MB_tstep FoR_body).quat)

/-- `def_rot_axis_FoR_wrt_node` (lagrangeconstraints.py:295-397): keeps the
FoR's rotation axis parallel to a node-fixed axis; 2 equations.  `indep` is
the constraint's cached row pair (`self.indep`, `[]` ↦ `none`): when empty
it is computed from the current kinematics and stored, otherwise reused
unchanged; `none` models the source's IndexError on `indep[0]` when the
selection never fired. -/
def def_rot_axis_FoR_wrt_node (A : Alg) (MB_tstep : ℕ → TStep) (MB_beam : ℕ → Beam)
    (FoR_body node_body node_number node_FoR_dof node_dof FoR_dof sys_size : ℕ)
    (Lambda_dot : Vec) (rot_axisB : Vec) (scalingFactor _penaltyFactor : Scal)
    (ieq : ℕ) (S : LMState) (indep : Option (ℕ × ℕ)) :
    Option (LMState × ℕ × (ℕ × ℕ)) :=
  let ielem := ((MB_beam node_body).node_master_elem node_number).1
  let inode := ((MB_beam node_body).node_master_elem node_number).2
  let psi := (MB_tstep node_body).psi ielem inode
  let prodM := rotAxisProd A MB_tstep MB_beam FoR_body node_body node_number rot_axisB
  let indep' := match indep with
    | some p => some p
    | none => indepRows prodM
  match indep' with
  | none => none
  | some (i0, i1) =>
      let new_Lambda_dot : Vec := fun k =>
        if k = i1 then Lambda_dot (ieq + 1) else if k = i0 then Lambda_dot ieq else 0
      let Bnh := setB zeroM 0 (FoR_dof + 3) 2 3
        (fun r c => prodM (if r = 0 then i0 else i1) c)
      let Q1 := addV S.Q 0 sys_size
        (fun i => scalingFactor * dotRange 2 (fun k => Bnh k i * Lambda_dot (ieq + k)))
      let Q2 := addV Q1 (sys_size + ieq) 2
        (fun r => matVec3 prodM (fun c => (MB_tstep FoR_body).for_vel (3 + c))
          (if r = 0 then i0 else i1))
      let C1 := addB S.C (sys_size + ieq) 0 2 sys_size (smulM scalingFactor Bnh)
      let C2 := addB C1 0 (sys_size + ieq) sys_size 2 (smulM scalingFactor (trM Bnh))
      let C3 :=
        if (MB_beam node_body).FoR_movement = Movement.free then
          addB C2 (FoR_dof + 3) (node_FoR_dof + 6) 3 4
            (matMul3 (trM (A.quat2rotation (MB_tstep FoR_body).quat))
              (A.der_Cquat_by_v (MB_tstep node_body).quat
                (matVec3 (matMul3 (A.crv2rotation psi) (trM (A.skew rot_axisB)))
                  new_Lambda_dot)))
        else C2
      let C4 := addB C3 (FoR_dof + 3) (FoR_dof + 6) 3 4
        (A.der_CquatT_by_v (MB_tstep FoR_body).quat
          (matVec3 (matMul3 (matMul3 (A.quat2rotation (MB_tstep node_body).quat)
            (A.crv2rotation psi)) (trM (A.skew rot_axisB))) new_Lambda_dot))
      let K1 := addB S.K (FoR_dof + 3) (node_dof + 3) 3 3
        (matMul3 (matMul3 (trM (A.quat2rotation (MB_tstep FoR_body).quat))
          (A.quat2rotation (MB_tstep node_body).quat))
          (A.der_CcrvT_by_v psi (matVec3 (trM (A.skew rot_axisB)) new_Lambda_dot)))
      some ({ C := C4, K := K1, Q := Q2 }, ieq + 2, (i0, i1))

/-- `def_rot_vel_FoR_wrt_node` (lagrangeconstraints.py:400-469): prescribed
rotation rate of a FoR about a node-fixed axis; 1 equation. -/
def def_rot_vel_FoR_wrt_node (A : Alg) (MB_tstep : ℕ → TStep) (MB_beam : ℕ → Beam)
    (FoR_body node_body node_number node_FoR_dof node_dof FoR_dof sys_size : ℕ)
    (Lambda_dot : Vec) (rot_axisB : Vec) (rot_vel : Scal)
    (scalingFactor _penaltyFactor : Scal) (ieq : ℕ) (S : LMState) : LMState × ℕ :=
  let ielem := ((MB_beam node_body).node_master_elem node_number).1
  let inode := ((MB_beam node_body).node_master_elem node_number).2
  let psi := (MB_tstep node_body).psi ielem inode
  let rv : Vec := vecMat3 (vecMat3 (vecMat3 rot_axisB (trM (A.crv2rotation psi)))
      (trM (A.quat2rotation (MB_tstep node_body).quat)))
      (A.quat2rotation (MB_tstep FoR_body).quat)
  let Bnh := setB zeroM 0 (FoR_dof + 3) 1 3 (fun _ c => rv c)
  let Q1 := addV S.Q 0 sys_size
    (fun i => scalingFactor * dotRange 1 (fun k => Bnh k i * Lambda_dot (ieq + k)))
  let Q2 := addV Q1 (sys_size + ieq) 1
    (fun _ => dotV3 rv (fun c => (MB_tstep FoR_body).for_vel (3 + c)) - rot_vel)
  let C1 := addB S.C (sys_size + ieq) 0 1 sys_size (smulM scalingFactor Bnh)
  let C2 := addB C1 0 (sys_size + ieq) sys_size 1 (smulM scalingFactor (trM Bnh))
  let C3 :=
    if (MB_beam node_body).FoR_movement = Movement.free then
      addB C2 (FoR_dof + 3) (node_FoR_dof + 6) 3 4
        (matMul3 (trM (A.quat2rotation (MB_tstep FoR_body).quat))
          (A.der_Cquat_by_v (MB_tstep node_body).quat
            (matVec3 (A.crv2rotation psi)
              (fun c => rot_axisB c * Lambda_dot ieq))))
    else C2
  let C4 := addB C3 (FoR_dof + 3) (FoR_dof + 6) 3 4
    (A.der_CquatT_by_v (MB_tstep FoR_body).quat
      (matVec3 (matMul3 (A.quat2rotation (MB_tstep node_body).quat)
        (trM (A.crv2rotation psi))) (fun c => rot_axisB c * Lambda_dot ieq)))
  let K1 := addB S.K (FoR_dof + 3) (node_dof + 3) 3 3
    (matMul3 (matMul3 (trM (A.quat2rotation (MB_tstep FoR_body).quat))
      (A.quat2rotation (MB_tstep node_body).quat))
      (A.der_Ccrv_by_v psi (fun c => rot_axisB c * Lambda_dot ieq)))
  ({ C := C4, K := K1, Q := Q2 }, ieq + 1)

/-!  ## Lagrange constraints (source §Lagrange constraints): per-kind
static/dynamic contributions, threaded with the typed parameters their
classes store at `initialise`. -/

/-- A `lin_vel_node_wrt*` velocity target: a single constant vector, or a
per-step time history (`len(self.vel.shape) > 1` in the source). -/
inductive VelSpec where
  | single (v : Vec)
  | timeSeries (f : ℕ → Vec)

/-- `self.vel[ts-1, :]` for a time history, `self.vel` otherwise.  (`ts - 1`
is truncated `ℕ` subtraction; at `ts = 0` Python's `-1` wraps to the last
row, an edge no claim touches.) -/
def currentVel : VelSpec → ℕ → Vec
  | .single v, _ => v
  | .timeSeries f, ts => f (ts - 1)

/-- `hinge_node_FoR.dynamicmat` (lines 519-533): equal-velocity kernel then
rotation-axis kernel, with the constraint's `self.indep` cache threaded;
`none` models the axis kernel's crash on a norm tie with an empty cache. -/
def hinge_node_FoR_dynamicmat (A : Alg) (MB_tstep : ℕ → TStep) (MB_beam : ℕ → Beam)
    (node_number node_body FoR_body : ℕ) (rot_axisB : Vec) (indep : Option (ℕ × ℕ))
    (sys_size : ℕ) (Lambda_dot : Vec) (scalingFactor penaltyFactor : Scal)
    (ieq0 : ℕ) (S : LMState) : Option (LMState × (ℕ × ℕ)) :=
  let node_dof := define_node_dof MB_beam node_body node_number
  let node_FoR_dof := define_FoR_dof MB_beam node_body
  let FoR_dof := define_FoR_dof MB_beam FoR_body
  let r1 := equal_lin_vel_node_FoR A MB_tstep MB_beam FoR_body node_body node_number
    node_FoR_dof node_dof FoR_dof sys_size Lambda_dot scalingFactor penaltyFactor ieq0 S
  match def_rot_axis_FoR_wrt_node A MB_tstep MB_beam FoR_body node_body node_number
    node_FoR_dof node_dof FoR_dof sys_size Lambda_dot rot_axisB scalingFactor
    penaltyFactor r1.2 r1.1 indep with
  | none => none
  | some (S2, _, p) => some (S2, p)

/-- `hinge_node_FoR_constant_vel.dynamicmat` (lines 591-605): hinge kernels
plus the rotation-rate kernel. -/
def hinge_node_FoR_constant_vel_dynamicmat (A : Alg) (MB_tstep : ℕ → TStep)
    (MB_beam : ℕ → Beam) (node_number node_body FoR_body : ℕ) (rot_axisB : Vec)
    (rot_vel : Scal) (indep : Option (ℕ × ℕ)) (sys_size : ℕ) (Lambda_dot : Vec)
    (scalingFactor penaltyFactor : Scal) (ieq0 : ℕ) (S : LMState) :
    Option (LMState × (ℕ × ℕ)) :=
  let node_dof := define_node_dof MB_beam node_body node_number
  let node_FoR_dof := define_FoR_dof MB_beam node_body
  let FoR_dof := define_FoR_dof MB_beam FoR_body
  let r1 := equal_lin_vel_node_FoR A MB_tstep MB_beam FoR_body node_body node_number
    node_FoR_dof node_dof FoR_dof sys_size Lambda_dot scalingFactor penaltyFactor ieq0 S
  match def_rot_axis_FoR_wrt_node A MB_tstep MB_beam FoR_body node_body node_number
    node_FoR_dof node_dof FoR_dof sys_size Lambda_dot rot_axisB scalingFactor
    penaltyFactor r1.2 r1.1 indep with
  | none => none
  | some (S2, ieq2, p) =>
      let r3 := def_rot_vel_FoR_wrt_node A MB_tstep MB_beam FoR_body node_body
        node_number node_FoR_dof node_dof FoR_dof sys_size Lambda_dot rot_axisB
        rot_vel scalingFactor penaltyFactor ieq2 S2
      some (r3.1, p)

/-- `spherical_node_FoR.dynamicmat` (lines 657-670): the equal-velocity
kernel alone. -/
def spherical_node_FoR_dynamicmat (A : Alg) (MB_tstep : ℕ → TStep)
    (MB_beam : ℕ → Beam) (node_number node_body FoR_body : ℕ) (sys_size : ℕ)
    (Lambda_dot : Vec) (scalingFactor penaltyFactor : Scal) (ieq0 : ℕ)
    (S : LMState) : LMState :=
  let node_dof := define_node_dof MB_beam node_body node_number
  let node_FoR_dof := define_FoR_dof MB_beam node_body
  let FoR_dof := define_FoR_dof MB_beam FoR_body
  (equal_lin_vel_node_FoR A MB_tstep MB_beam FoR_body node_body node_number
    node_FoR_dof node_dof FoR_dof sys_size Lambda_dot scalingFactor penaltyFactor
    ieq0 S).1

/-- `spherical_FoR.dynamicmat` (lines 757-778): pins the FoR's linear
velocity. -/
def spherical_FoR_dynamicmat (_A : Alg) (MB_tstep : ℕ → TStep) (MB_beam : ℕ → Beam)
    (body_FoR sys_size : ℕ) (Lambda_dot : Vec) (scalingFactor _penaltyFactor : Scal)
    (ieq : ℕ) (S : LMState) : LMState :=
  let FoR_dof := define_FoR_dof MB_beam body_FoR
  let Bnh := setB zeroM 0 FoR_dof 3 3 (smulM 1 eye3)
  let C1 := addB S.C (sys_size + ieq) 0 3 sys_size (smulM scalingFactor Bnh)
  let C2 := addB C1 0 (sys_size + ieq) sys_size 3 (smulM scalingFactor (trM Bnh))
  let Q1 := addV S.Q 0 sys_size
    (fun i => scalingFactor * dotRange 3 (fun k => Bnh k i * Lambda_dot (ieq + k)))
  let Q2 := addV Q1 (sys_size + ieq) 3 (MB_tstep body_FoR).for_vel
  { C := C2, K := S.K, Q := Q2 }

/-- `hinge_FoR.dynamicmat` (lines 827-866): pins the FoR's linear velocity
and two independent components of its angular velocity; the row selection is
recomputed on every call (no cache here) and crashes on a norm tie. -/
def hinge_FoR_dynamicmat (A : Alg) (MB_tstep : ℕ → TStep) (MB_beam : ℕ → Beam)
    (body_FoR : ℕ) (rot_axis : Vec) (sys_size : ℕ) (Lambda_dot : Vec)
    (scalingFactor _penaltyFactor : Scal) (ieq : ℕ) (S : LMState) :
    Option LMState :=
  let FoR_dof := define_FoR_dof MB_beam body_FoR
  let Bnh0 := setB zeroM 0 FoR_dof 3 3 (smulM 1 eye3)
  let skew_rot_axis := A.skew rot_axis
  match indepRows skew_rot_axis with
  | none => none
  | some (row0, row1) =>
      let Bnh := setB Bnh0 3 (FoR_dof + 3) 2 3
        (fun r c => skew_rot_axis (if r = 0 then row0 else row1) c)
      let C1 := addB S.C (sys_size + ieq) 0 5 sys_size (smulM scalingFactor Bnh)
      let C2 := addB C1 0 (sys_size + ieq) sys_size 5 (smulM scalingFactor (trM Bnh))
      let Q1 := addV S.Q 0 sys_size
        (fun i => scalingFactor * dotRange 5 (fun k => Bnh k i * Lambda_dot (ieq + k)))
      let Q2 := addV Q1 (sys_size + ieq) 3 (MB_tstep body_FoR).for_vel
      let Q3 := addV Q2 (sys_size + ieq + 3) 2
        (fun r => matVec3 skew_rot_axis (fun c => (MB_tstep body_FoR).for_vel (3 + c))
          (if r = 0 then row0 else row1))
      some { C := C2, K := S.K, Q := Q3 }

/-- `hinge_FoR_wrtG.dynamicmat` (lines 915-956): as `hinge_FoR` but the
linear-velocity rows carry the FoR's rotation matrix, with an extra quat
coupling block. -/
def hinge_FoR_wrtG_dynamicmat (A : Alg) (MB_tstep : ℕ → TStep) (MB_beam : ℕ → Beam)
    (body_FoR : ℕ) (rot_axis : Vec) (sys_size : ℕ) (Lambda_dot : Vec)
    (scalingFactor _penaltyFactor : Scal) (ieq : ℕ) (S : LMState) :
    Option LMState :=
  let FoR_dof := define_FoR_dof MB_beam body_FoR
  let Bnh0 := setB zeroM 0 FoR_dof 3 3 (A.quat2rotation (MB_tstep body_FoR).quat)
  let skew_rot_axis := A.skew rot_axis
  match indepRows skew_rot_axis with
  | none => none
  | some (row0, row1) =>
      let Bnh := setB Bnh0 3 (FoR_dof + 3) 2 3
        (fun r c => skew_rot_axis (if r = 0 then row0 else row1) c)
      let C1 := addB S.C (sys_size + ieq) 0 5 sys_size (smulM scalingFactor Bnh)
      let C2 := addB C1 0 (sys_size + ieq) sys_size 5 (smulM scalingFactor (trM Bnh))
      let C3 := addB C2 FoR_dof (FoR_dof + 6) 3 4
        (A.der_CquatT_by_v (MB_tstep body_FoR).quat (fun k => Lambda_dot (ieq + k)))
      let Q1 := addV S.Q 0 sys_size
        (fun i => scalingFactor * dotRange 5 (fun k => Bnh k i * Lambda_dot (ieq + k)))
      let Q2 := addV Q1 (sys_size + ieq) 3
        (matVec3 (A.quat2rotation (MB_tstep body_FoR).quat) (MB_tstep body_FoR).for_vel)
      let Q3 := addV Q2 (sys_size + ieq + 3) 2
        (fun r => matVec3 skew_rot_axis (fun c => (MB_tstep body_FoR).for_vel (3 + c))
          (if r = 0 then row0 else row1))
      some { C := C3, K := S.K, Q := Q3 }

/-- `fully_constrained_node_FoR.dynamicmat` (lines 1008-1045); note the
source hardwires body 0/1 in the master-elem lookup and the residual. -/
def fully_constrained_node_FoR_dynamicmat (A : Alg) (MB_tstep : ℕ → TStep)
    (MB_beam : ℕ → Beam) (node_number node_body FoR_body : ℕ) (sys_size : ℕ)
    (Lambda_dot : Vec) (scalingFactor _penaltyFactor : Scal) (ieq : ℕ)
    (S : LMState) : LMState :=
  let node_dof := define_node_dof MB_beam node_body node_number
  let FoR_dof := define_FoR_dof MB_beam FoR_body
  let Bnh0 := setB zeroM 0 node_dof 3 3 (smulM (-1) eye3)
  let quat := A.quat_bound (MB_tstep FoR_body).quat
  let Bnh1 := setB Bnh0 0 FoR_dof 3 3 (A.quat2rotation quat)
  let Bnh2 := setB Bnh1 3 (FoR_dof + 3) 3 3 (smulM (-1) (A.quat2rotation quat))
  let ielem := ((MB_beam 0).node_master_elem node_number).1
  let inode := ((MB_beam 0).node_master_elem node_number).2
  let Bnh := setB Bnh2 3 (node_dof + 3) 3 3 (A.crv2tan ((MB_tstep 0).psi ielem inode))
  let C1 := addB S.C (sys_size + ieq) 0 6 sys_size (smulM scalingFactor Bnh)
  let C2 := addB C1 0 (sys_size + ieq) sys_size 6 (smulM scalingFactor (trM Bnh))
  let Q1 := addV S.Q 0 sys_size
    (fun i => scalingFactor * dotRange 6 (fun k => Bnh k i * Lambda_dot (ieq + k)))
  let Q2 := addV Q1 (sys_size + ieq) 3 (fun c =>
    -(MB_tstep 0).pos_dot ((MB_tstep 0).nnodes - 1) c +
    matVec3 (A.quat2rotation quat) (MB_tstep 1).for_vel c)
  let Q3 := addV Q2 (sys_size + ieq + 3) 3 (fun c =>
    matVec3 (A.crv2tan ((MB_tstep 0).psi ielem inode))
      ((MB_tstep 0).psi_dot ielem inode) c -
    matVec3 (A.quat2rotation quat)
      (fun c2 => (MB_tstep FoR_body).for_vel (3 + c2)) c)
  let C3 := addB C2 FoR_dof (FoR_dof + 6) 3 4
    (A.der_CquatT_by_v quat (fun k => scalingFactor * Lambda_dot (ieq + k)))
  let C4 := addB C3 (FoR_dof + 3) (FoR_dof + 6) 3 4
    (smulM (-1) (A.der_CquatT_by_v quat (fun k => scalingFactor * Lambda_dot (ieq + 3 + k))))
  let K1 := addB S.K (node_dof + 3) (node_dof + 3) 3 3
    (A.der_TanT_by_xv ((MB_tstep 0).psi ielem inode)
      (fun k => scalingFactor * Lambda_dot (ieq + 3 + k)))
  { C := C4, K := K1, Q := Q3 }

/-- `constant_rot_vel_FoR.dynamicmat` (lines 1129-1149). -/
def constant_rot_vel_FoR_dynamicmat (_A : Alg) (MB_tstep : ℕ → TStep)
    (MB_beam : ℕ → Beam) (FoR_body : ℕ) (rot_vel : Vec) (sys_size : ℕ)
    (Lambda_dot : Vec) (scalingFactor _penaltyFactor : Scal) (ieq : ℕ)
    (S : LMState) : LMState :=
  let FoR_dof := define_FoR_dof MB_beam FoR_body
  let Bnh := setB zeroM 0 (FoR_dof + 3) 3 3 eye3
  let C1 := addB S.C (sys_size + ieq) 0 3 sys_size (smulM scalingFactor Bnh)
  let C2 := addB C1 0 (sys_size + ieq) sys_size 3 (smulM scalingFactor (trM Bnh))
  let Q1 := addV S.Q 0 sys_size
    (fun i => scalingFactor * dotRange 3 (fun k => Bnh k i * Lambda_dot (ieq + k)))
  let Q2 := addV Q1 (sys_size + ieq) 3
    (fun c => (MB_tstep FoR_body).for_vel (3 + c) - rot_vel c)
  { C := C2, K := S.K, Q := Q2 }

/-- `constant_vel_FoR.dynamicmat` (lines 1197-1217). -/
def constant_vel_FoR_dynamicmat (_A : Alg) (MB_tstep : ℕ → TStep)
    (MB_beam : ℕ → Beam) (FoR_body : ℕ) (vel : Vec) (sys_size : ℕ)
    (Lambda_dot : Vec) (scalingFactor _penaltyFactor : Scal) (ieq : ℕ)
    (S : LMState) : LMState :=
  let FoR_dof := define_FoR_dof MB_beam FoR_body
  let Bnh := setB zeroM 0 FoR_dof 6 6 eye6
  let C1 := addB S.C (sys_size + ieq) 0 6 sys_size (smulM scalingFactor Bnh)
  let C2 := addB C1 0 (sys_size + ieq) sys_size 6 (smulM scalingFactor (trM Bnh))
  let Q1 := addV S.Q 0 sys_size
    (fun i => scalingFactor * dotRange 6 (fun k => Bnh k i * Lambda_dot (ieq + k)))
  let Q2 := addV Q1 (sys_size + ieq) 6
    (fun c => (MB_tstep FoR_body).for_vel c - vel c)
  { C := C2, K := S.K, Q := Q2 }

/-- `lin_vel_node_wrtA.staticmat` (lines 1263-1285); works on the stiffness
matrix and the multiplier values `Lambda` (not their rates). -/
def lin_vel_node_wrtA_staticmat (MB_tstep : ℕ → TStep) (MB_beam : ℕ → Beam)
    (node_number body_number : ℕ) (sys_size : ℕ) (Lambda : Vec)
    (scalingFactor _penaltyFactor : Scal) (ieq : ℕ) (S : LMState) : LMState :=
  let node_dof := define_node_dof MB_beam body_number node_number
  let B := setB zeroM 0 node_dof 3 3 eye3
  let K1 := addB S.K (sys_size + ieq) 0 3 sys_size (smulM scalingFactor B)
  let K2 := addB K1 0 (sys_size + ieq) sys_size 3 (smulM scalingFactor (trM B))
  let Q1 := addV S.Q 0 sys_size
    (fun i => scalingFactor * dotRange 3 (fun k => B k i * Lambda (ieq + k)))
  let Q2 := addV Q1 (sys_size + ieq) 3 (fun c =>
    (MB_tstep body_number).pos node_number c -
    (MB_beam body_number).ini_info.pos node_number c)
  { C := S.C, K := K2, Q := Q2 }

/-- `lin_vel_node_wrtA.dynamicmat` (lines 1287-1314). -/
def lin_vel_node_wrtA_dynamicmat (MB_tstep : ℕ → TStep) (MB_beam : ℕ → Beam)
    (node_number body_number : ℕ) (vel : VelSpec) (ts sys_size : ℕ)
    (Lambda_dot : Vec) (scalingFactor _penaltyFactor : Scal) (ieq : ℕ)
    (S : LMState) : LMState :=
  let current_vel := currentVel vel ts
  let node_dof := define_node_dof MB_beam body_number node_number
  let Bnh := setB zeroM 0 node_dof 3 3 eye3
  let C1 := addB S.C (sys_size + ieq) 0 3 sys_size (smulM scalingFactor Bnh)
  let C2 := addB C1 0 (sys_size + ieq) sys_size 3 (smulM scalingFactor (trM Bnh))
  let Q1 := addV S.Q 0 sys_size
    (fun i => scalingFactor * dotRange 3 (fun k => Bnh k i * Lambda_dot (ieq + k)))
  let Q2 := addV Q1 (sys_size + ieq) 3 (fun c =>
    (MB_tstep body_number).pos_dot node_number c - current_vel c)
  { C := C2, K := S.K, Q := Q2 }

/-- `lin_vel_node_wrtG.staticmat` (lines 1359-1384). -/
def lin_vel_node_wrtG_staticmat (A : Alg) (MB_tstep : ℕ → TStep) (MB_beam : ℕ → Beam)
    (node_number body_number : ℕ) (sys_size : ℕ) (Lambda : Vec)
    (scalingFactor _penaltyFactor : Scal) (ieq : ℕ) (S : LMState) : LMState :=
  let node_dof := define_node_dof MB_beam body_number node_number
  let B := setB zeroM 0 node_dof 3 3 (A.quat2rotation (MB_tstep body_number).quat)
  let K1 := addB S.K (sys_size + ieq) 0 3 sys_size (smulM scalingFactor B)
  let K2 := addB K1 0 (sys_size + ieq) sys_size 3 (smulM scalingFactor (trM B))
  let Q1 := addV S.Q 0 sys_size
    (fun i => scalingFactor * dotRange 3 (fun k => B k i * Lambda (ieq + k)))
  let Q2 := addV Q1 (sys_size + ieq) 3 (fun c =>
    matVec3 (A.quat2rotation (MB_tstep body_number).quat)
      ((MB_tstep body_number).pos node_number) c +
    (MB_tstep body_number).for_pos c)
  let Q3 := addV Q2 (sys_size + ieq) 3 (fun c =>
    -(matVec3 (A.quat2rotation (MB_beam body_number).ini_info.quat)
        ((MB_beam body_number).ini_info.pos node_number) c +
      (MB_beam body_number).ini_info.for_pos c))
  { C := S.C, K := K2, Q := Q3 }

/-- `lin_vel_node_wrtG.dynamicmat` (lines 1386-1426). -/
def lin_vel_node_wrtG_dynamicmat (A : Alg) (MB_tstep : ℕ → TStep) (MB_beam : ℕ → Beam)
    (node_number body_number : ℕ) (vel : VelSpec) (ts sys_size : ℕ)
    (Lambda_dot : Vec) (scalingFactor _penaltyFactor : Scal) (ieq : ℕ)
    (S : LMState) : LMState :=
  let current_vel := currentVel vel ts
  let FoR_dof := define_FoR_dof MB_beam body_number
  let node_dof := define_node_dof MB_beam body_number node_number
  let Cq := A.quat2rotation (MB_tstep body_number).quat
  let Bnh0 :=
    if (MB_beam body_number).FoR_movement = Movement.free then
      setB (setB zeroM 0 FoR_dof 3 3 Cq) 0 (FoR_dof + 3) 3 3
        (smulM (-1) (matMul3 Cq (A.skew ((MB_tstep body_number).pos node_number))))
    else zeroM
  let Bnh := setB Bnh0 0 node_dof 3 3 Cq
  let C1 := addB S.C (sys_size + ieq) 0 3 sys_size (smulM scalingFactor Bnh)
  let C2 := addB C1 0 (sys_size + ieq) sys_size 3 (smulM scalingFactor (trM Bnh))
  let Ld : Vec := fun k => Lambda_dot (ieq + k)
  let CK :=
    if (MB_beam body_number).FoR_movement = Movement.free then
      let C3 := addB C2 FoR_dof (FoR_dof + 6) 3 4
        (A.der_CquatT_by_v (MB_tstep body_number).quat Ld)
      let C4 := addB C3 node_dof (FoR_dof + 6) 3 4
        (A.der_CquatT_by_v (MB_tstep body_number).quat Ld)
      let C5 := addB C4 (FoR_dof + 3) (FoR_dof + 6) 3 4
        (matMul3 (A.skew ((MB_tstep body_number).pos node_number))
          (A.der_CquatT_by_v (MB_tstep body_number).quat Ld))
      let K1 := addB S.K (FoR_dof + 3) node_dof 3 3
        (smulM (-1) (A.skew (matVec3 (trM Cq) Ld)))
      (C5, K1)
    else (C2, S.K)
  let Q1 := addV S.Q 0 sys_size
    (fun i => scalingFactor * dotRange 3 (fun k => Bnh k i * Lambda_dot (ieq + k)))
  let Q2 := addV Q1 (sys_size + ieq) 3 (fun c =>
    matVec3 Cq (fun c2 =>
      (MB_tstep body_number).for_vel c2 +
      matVec3 (A.skew (fun c3 => (MB_tstep body_number).for_vel (3 + c3)))
        ((MB_tstep body_number).pos node_number) c2 +
      (MB_tstep body_number).pos_dot node_number c2) c -
    current_vel c)
  { C := CK.1, K := CK.2, Q := Q2 }

/-- The closed set of constraint variants with the typed parameters their
classes store at `initialise` (spec §9: the abstract-base-class kinds as a
sum type); `indep` is the `self.indep` row-pair cache of the two hinge-node
kinds. -/
inductive LCTyped where
  | hinge_node_FoR (node_number node_body FoR_body : ℕ) (rot_axisB : Vec)
      (indep : Option (ℕ × ℕ))
  | hinge_node_FoR_constant_vel (node_number node_body FoR_body : ℕ)
      (rot_axisB : Vec) (rot_vel : Scal) (indep : Option (ℕ × ℕ))
  | spherical_node_FoR (node_number node_body FoR_body : ℕ)
  | free
  | spherical_FoR (body_FoR : ℕ)
  | hinge_FoR (body_FoR : ℕ) (rot_axis : Vec)
  | hinge_FoR_wrtG (body_FoR : ℕ) (rot_axis : Vec)
  | fully_constrained_node_FoR (node_number node_body FoR_body : ℕ)
  | constant_rot_vel_FoR (FoR_body : ℕ) (rot_vel : Vec)
  | constant_vel_FoR (FoR_body : ℕ) (vel : Vec)
  | lin_vel_node_wrtA (node_number body_number : ℕ) (vel : VelSpec)
  | lin_vel_node_wrtG (node_number body_number : ℕ) (vel : VelSpec)

/-- `_n_eq` of a typed constraint (agrees with `n_eq` on the kind tag). -/
def lcN_eq : LCTyped → ℕ
  | .hinge_node_FoR _ _ _ _ _ => 5
  | .hinge_node_FoR_constant_vel _ _ _ _ _ _ => 6
  | .spherical_node_FoR _ _ _ => 3
  | .free => 0
  | .spherical_FoR _ => 3
  | .hinge_FoR _ _ => 5
  | .hinge_FoR_wrtG _ _ => 5
  | .fully_constrained_node_FoR _ _ _ => 6
  | .constant_rot_vel_FoR _ _ => 3
  | .constant_vel_FoR _ _ => 6
  | .lin_vel_node_wrtA _ _ _ => 3
  | .lin_vel_node_wrtG _ _ _ => 3

/-- Which `generate_lagrange_matrix` pass is running
(`dynamic_or_static`). -/
inductive CMode where
  | static
  | dynamic

/-- One constraint's contribution: dispatch of `staticmat` / `dynamicmat`
over the variants.  Every `staticmat` except the two `lin_vel_node_wrt*`
ones is an immediate `return` (no writes); `none` models the runtime crash
of the axis-row selection on a norm tie. -/
def contribution (A : Alg) (mode : CMode) (lc : LCTyped) (MB_tstep : ℕ → TStep)
    (MB_beam : ℕ → Beam) (ts sys_size : ℕ) (Lambda Lambda_dot : Vec)
    (scalingFactor penaltyFactor : Scal) (ieq : ℕ) (S : LMState) :
    Option LMState :=
  match mode, lc with
  | .static, .lin_vel_node_wrtA nn bn _vel =>
      some (lin_vel_node_wrtA_staticmat MB_tstep MB_beam nn bn sys_size Lambda
        scalingFactor penaltyFactor ieq S)
  | .static, .lin_vel_node_wrtG nn bn _vel =>
      some (lin_vel_node_wrtG_staticmat A MB_tstep MB_beam nn bn sys_size Lambda
        scalingFactor penaltyFactor ieq S)
  | .static, _ => some S
  | .dynamic, .hinge_node_FoR nn nb fb axis indep =>
      (hinge_node_FoR_dynamicmat A MB_tstep MB_beam nn nb fb axis indep sys_size
        Lambda_dot scalingFactor penaltyFactor ieq S).map Prod.fst
  | .dynamic, .hinge_node_FoR_constant_vel nn nb fb axis rv indep =>
      (hinge_node_FoR_constant_vel_dynamicmat A MB_tstep MB_beam nn nb fb axis rv
        indep sys_size Lambda_dot scalingFactor penaltyFactor ieq S).map Prod.fst
  | .dynamic, .spherical_node_FoR nn nb fb =>
      some (spherical_node_FoR_dynamicmat A MB_tstep MB_beam nn nb fb sys_size
        Lambda_dot scalingFactor penaltyFactor ieq S)
  | .dynamic, .free => some S
  | .dynamic, .spherical_FoR b =>
      some (spherical_FoR_dynamicmat A MB_tstep MB_beam b sys_size Lambda_dot
        scalingFactor penaltyFactor ieq S)
  | .dynamic, .hinge_FoR b axis =>
      hinge_FoR_dynamicmat A MB_tstep MB_beam b axis sys_size Lambda_dot
        scalingFactor penaltyFactor ieq S
  | .dynamic, .hinge_FoR_wrtG b axis =>
      hinge_FoR_wrtG_dynamicmat A MB_tstep MB_beam b axis sys_size Lambda_dot
        scalingFactor penaltyFactor ieq S
  | .dynamic, .fully_constrained_node_FoR nn nb fb =>
      some (fully_constrained_node_FoR_dynamicmat A MB_tstep MB_beam nn nb fb
        sys_size Lambda_dot scalingFactor penaltyFactor ieq S)
  | .dynamic, .constant_rot_vel_FoR b rv =>
      some (constant_rot_vel_FoR_dynamicmat A MB_tstep MB_beam b rv sys_size
        Lambda_dot scalingFactor penaltyFactor ieq S)
  | .dynamic, .constant_vel_FoR b v =>
      some (constant_vel_FoR_dynamicmat A MB_tstep MB_beam b v sys_size Lambda_dot
        scalingFactor penaltyFactor ieq S)
  | .dynamic, .lin_vel_node_wrtA nn bn vel =>
      some (lin_vel_node_wrtA_dynamicmat MB_tstep MB_beam nn bn vel ts sys_size
        Lambda_dot scalingFactor penaltyFactor ieq S)
  | .dynamic, .lin_vel_node_wrtG nn bn vel =>
      some (lin_vel_node_wrtG_dynamicmat A MB_tstep MB_beam nn bn vel ts sys_size
        Lambda_dot scalingFactor penaltyFactor ieq S)

/-- The in-range contract (spec §4.1) instantiated per variant: every
body-interior block a contribution writes lies inside
`[0, sys_size) × [0, sys_size)`. -/
def ValidDofs (lc : LCTyped) (MB_beam : ℕ → Beam) (sys_size : ℕ) : Prop :=
  match lc with
  | .hinge_node_FoR nn nb fb _ _ =>
      define_node_dof MB_beam nb nn + 6 ≤ sys_size ∧
      define_FoR_dof MB_beam nb + 10 ≤ sys_size ∧
      define_FoR_dof MB_beam fb + 10 ≤ sys_size
  | .hinge_node_FoR_constant_vel nn nb fb _ _ _ =>
      define_node_dof MB_beam nb nn + 6 ≤ sys_size ∧
      define_FoR_dof MB_beam nb + 10 ≤ sys_size ∧
      define_FoR_dof MB_beam fb + 10 ≤ sys_size
  | .spherical_node_FoR nn nb fb =>
      define_node_dof MB_beam nb nn + 6 ≤ sys_size ∧
      define_FoR_dof MB_beam nb + 10 ≤ sys_size ∧
      define_FoR_dof MB_beam fb + 10 ≤ sys_size
  | .free => True
  | .spherical_FoR _ => True
  | .hinge_FoR _ _ => True
  | .hinge_FoR_wrtG b _ => define_FoR_dof MB_beam b + 10 ≤ sys_size
  | .fully_constrained_node_FoR nn nb fb =>
      define_node_dof MB_beam nb nn + 6 ≤ sys_size ∧
      define_FoR_dof MB_beam fb + 10 ≤ sys_size
  | .constant_rot_vel_FoR _ _ => True
  | .constant_vel_FoR _ _ => True
  | .lin_vel_node_wrtA _ _ _ => True
  | .lin_vel_node_wrtG nn bn _ =>
      define_node_dof MB_beam bn nn + 6 ≤ sys_size ∧
      define_FoR_dof MB_beam bn + 10 ≤ sys_size

/-!  ## Off-diagonal symmetry (spec §3 invariant) -/

/-- The coupling blocks of `M` are mutually transposed over the first `N`
multiplier rows: `M[sys+i, j] = M[j, sys+i]`. -/
def SymmOff (M : Mat) (sys N : ℕ) : Prop :=
  ∀ i, i < N → ∀ j, j < sys → M (sys + i) j = M j (sys + i)

lemma symmOff_zero (sys N : ℕ) : SymmOff zeroM sys N := by
  intro i _ j _
  rfl

/-- A block add entirely inside the body-interior `sys × sys` square leaves
the coupling blocks untouched. -/
lemma symmOff_addB_topLeft {M : Mat} {sys N : ℕ} (r c nr nc : ℕ) (B : Mat)
    (hr : r + nr ≤ sys) (hc : c + nc ≤ sys) (h : SymmOff M sys N) :
    SymmOff (addB M r c nr nc B) sys N := by
  intro i hi j hj
  unfold addB
  rw [if_neg (by omega), if_neg (by omega)]
  exact h i hi j hj

/-- Adding a block at `[sys+ieq : sys+ieq+n, 0 : sys]` together with its
transpose at `[0 : sys, sys+ieq : sys+ieq+n]` preserves the symmetry of the
coupling blocks. -/
lemma symmOff_addPair {M : Mat} {sys N : ℕ} (ieq n : ℕ) (B Bt : Mat)
    (hB : ∀ r c, Bt r c = B c r) (h : SymmOff M sys N) :
    SymmOff (addB (addB M (sys + ieq) 0 n sys B) 0 (sys + ieq) sys n Bt) sys N := by
  intro i hi j hj
  by_cases hin : ieq ≤ i ∧ i < ieq + n
  · have e1 : addB (addB M (sys + ieq) 0 n sys B) 0 (sys + ieq) sys n Bt (sys + i) j
        = M (sys + i) j + B (i - ieq) j := by
      unfold addB
      rw [if_neg (by omega), if_pos ⟨by omega, by omega, by omega, by omega⟩]
      have e : sys + i - (sys + ieq) = i - ieq := by omega
      rw [e, Nat.sub_zero]
    have e2 : addB (addB M (sys + ieq) 0 n sys B) 0 (sys + ieq) sys n Bt j (sys + i)
        = M j (sys + i) + B (i - ieq) j := by
      unfold addB
      rw [if_pos ⟨by omega, by omega, by omega, by omega⟩, if_neg (by omega)]
      have e : sys + i - (sys + ieq) = i - ieq := by omega
      rw [e, Nat.sub_zero, hB]
    rw [e1, e2, h i hi j hj]
  · have e1 : addB (addB M (sys + ieq) 0 n sys B) 0 (sys + ieq) sys n Bt (sys + i) j
        = M (sys + i) j := by
      unfold addB
      rw [if_neg (by omega), if_neg (by omega)]
    have e2 : addB (addB M (sys + ieq) 0 n sys B) 0 (sys + ieq) sys n Bt j (sys + i)
        = M j (sys + i) := by
      unfold addB
      rw [if_neg (by omega), if_neg (by omega)]
    rw [e1, e2, h i hi j hj]

lemma smulM_trM_flip (a : Scal) (B : Mat) :
    ∀ r c, smulM a (trM B) r c = smulM a B c r := fun _ _ => rfl

lemma symm_equal_lin_vel (A : Alg) (tst : ℕ → TStep) (bm : ℕ → Beam)
    (fb nb nn nFoR nd fd sys : ℕ) (Ld : Vec) (sF pF : Scal) (ieq N : ℕ)
    (S : LMState)
    (h1 : nd + 6 ≤ sys) (h2 : nFoR + 10 ≤ sys) (h3 : fd + 10 ≤ sys)
    (hC : SymmOff S.C sys N) (hK : SymmOff S.K sys N) :
    SymmOff (equal_lin_vel_node_FoR A tst bm fb nb nn nFoR nd fd sys Ld sF pF
      ieq S).1.C sys N ∧
    SymmOff (equal_lin_vel_node_FoR A tst bm fb nb nn nFoR nd fd sys Ld sF pF
      ieq S).1.K sys N := by
  unfold equal_lin_vel_node_FoR
  by_cases hfree : (bm nb).FoR_movement = Movement.free
  · simp only [hfree, if_true, reduceIte]
    constructor
    · exact symmOff_addB_topLeft _ _ _ _ _ (by omega) (by omega)
        (symmOff_addB_topLeft _ _ _ _ _ (by omega) (by omega)
        (symmOff_addB_topLeft _ _ _ _ _ (by omega) (by omega)
        (symmOff_addB_topLeft _ _ _ _ _ (by omega) (by omega)
        (symmOff_addPair _ _ _ _ (smulM_trM_flip _ _) hC))))
    · exact symmOff_addB_topLeft _ _ _ _ _ (by omega) (by omega) hK
  · simp only [hfree, if_false, reduceIte]
    constructor
    · exact symmOff_addB_topLeft _ _ _ _ _ (by omega) (by omega)
        (symmOff_addPair _ _ _ _ (smulM_trM_flip _ _) hC)
    · exact hK

lemma symm_def_rot_axis (A : Alg) (tst : ℕ → TStep) (bm : ℕ → Beam)
    (fb nb nn nFoR nd fd sys : ℕ) (Ld axis : Vec) (sF pF : Scal) (ieq N : ℕ)
    (S : LMState) (indep : Option (ℕ × ℕ))
    (h1 : nd + 6 ≤ sys) (h2 : nFoR + 10 ≤ sys) (h3 : fd + 10 ≤ sys)
    (hC : SymmOff S.C sys N) (hK : SymmOff S.K sys N) :
    ∀ r, def_rot_axis_FoR_wrt_node A tst bm fb nb nn nFoR nd fd sys Ld axis sF pF
        ieq S indep = some r →
      SymmOff r.1.C sys N ∧ SymmOff r.1.K sys N := by
  intro r hres
  unfold def_rot_axis_FoR_wrt_node at hres
  rcases indep with _ | ⟨i0, i1⟩
  · dsimp only at hres
    rcases hsel : indepRows (rotAxisProd A tst bm fb nb nn axis) with _ | ⟨i0, i1⟩
    · rw [hsel] at hres
      exact Option.noConfusion hres
    · rw [hsel] at hres
      dsimp only at hres
      obtain rfl := Option.some.inj hres
      by_cases hfree : (bm nb).FoR_movement = Movement.free
      · simp only [hfree, reduceIte]
        refine ⟨?_, ?_⟩
        · exact symmOff_addB_topLeft _ _ _ _ _ (by omega) (by omega)
            (symmOff_addB_topLeft _ _ _ _ _ (by omega) (by omega)
            (symmOff_addPair _ _ _ _ (smulM_trM_flip _ _) hC))
        · exact symmOff_addB_topLeft _ _ _ _ _ (by omega) (by omega) hK
      · simp only [hfree, reduceIte]
        refine ⟨?_, ?_⟩
        · exact symmOff_addB_topLeft _ _ _ _ _ (by omega) (by omega)
            (symmOff_addPair _ _ _ _ (smulM_trM_flip _ _) hC)
        · exact symmOff_addB_topLeft _ _ _ _ _ (by omega) (by omega) hK
  · dsimp only at hres
    obtain rfl := Option.some.inj hres
    by_cases hfree : (bm nb).FoR_movement = Movement.free
    · simp only [hfree, reduceIte]
      refine ⟨?_, ?_⟩
      · exact symmOff_addB_topLeft _ _ _ _ _ (by omega) (by omega)
          (symmOff_addB_topLeft _ _ _ _ _ (by omega) (by omega)
          (symmOff_addPair _ _ _ _ (smulM_trM_flip _ _) hC))
      · exact symmOff_addB_topLeft _ _ _ _ _ (by omega) (by omega) hK
    · simp only [hfree, reduceIte]
      refine ⟨?_, ?_⟩
      · exact symmOff_addB_topLeft _ _ _ _ _ (by omega) (by omega)
          (symmOff_addPair _ _ _ _ (smulM_trM_flip _ _) hC)
      · exact symmOff_addB_topLeft _ _ _ _ _ (by omega) (by omega) hK

lemma symm_def_rot_vel (A : Alg) (tst : ℕ → TStep) (bm : ℕ → Beam)
    (fb nb nn nFoR nd fd sys : ℕ) (Ld axis : Vec) (rv sF pF : Scal) (ieq N : ℕ)
    (S : LMState)
    (h1 : nd + 6 ≤ sys) (h2 : nFoR + 10 ≤ sys) (h3 : fd + 10 ≤ sys)
    (hC : SymmOff S.C sys N) (hK : SymmOff S.K sys N) :
    SymmOff (def_rot_vel_FoR_wrt_node A tst bm fb nb nn nFoR nd fd sys Ld axis rv
      sF pF ieq S).1.C sys N ∧
    SymmOff (def_rot_vel_FoR_wrt_node A tst bm fb nb nn nFoR nd fd sys Ld axis rv
      sF pF ieq S).1.K sys N := by
  unfold def_rot_vel_FoR_wrt_node
  by_cases hfree : (bm nb).FoR_movement = Movement.free
  · simp only [hfree, reduceIte]
    refine ⟨?_, ?_⟩
    · exact symmOff_addB_topLeft _ _ _ _ _ (by omega) (by omega)
        (symmOff_addB_topLeft _ _ _ _ _ (by omega) (by omega)
        (symmOff_addPair _ _ _ _ (smulM_trM_flip _ _) hC))
    · exact symmOff_addB_topLeft _ _ _ _ _ (by omega) (by omega) hK
  · simp only [hfree, reduceIte]
    refine ⟨?_, ?_⟩
    · exact symmOff_addB_topLeft _ _ _ _ _ (by omega) (by omega)
        (symmOff_addPair _ _ _ _ (smulM_trM_flip _ _) hC)
    · exact symmOff_addB_topLeft _ _ _ _ _ (by omega) (by omega) hK

lemma symm_hinge_node (A : Alg) (tst : ℕ → TStep) (bm : ℕ → Beam)
    (nn nb fb : ℕ) (axis : Vec) (indep : Option (ℕ × ℕ)) (sys : ℕ) (Ld : Vec)
    (sF pF : Scal) (ieq N : ℕ) (S : LMState)
    (h1 : define_node_dof bm nb nn + 6 ≤ sys)
    (h2 : define_FoR_dof bm nb + 10 ≤ sys)
    (h3 : define_FoR_dof bm fb + 10 ≤ sys)
    (hC : SymmOff S.C sys N) (hK : SymmOff S.K sys N) :
    ∀ r, hinge_node_FoR_dynamicmat A tst bm nn nb fb axis indep sys Ld sF pF ieq S
        = some r →
      SymmOff r.1.C sys N ∧ SymmOff r.1.K sys N := by
  intro r hres
  unfold hinge_node_FoR_dynamicmat at hres
  dsimp only at hres
  obtain ⟨hc1, hk1⟩ := symm_equal_lin_vel A tst bm fb nb nn (define_FoR_dof bm nb)
    (define_node_dof bm nb nn) (define_FoR_dof bm fb) sys Ld sF pF ieq N S
    h1 h2 h3 hC hK
  rcases hax : def_rot_axis_FoR_wrt_node A tst bm fb nb nn (define_FoR_dof bm nb)
      (define_node_dof bm nb nn) (define_FoR_dof bm fb) sys Ld axis sF pF
      (equal_lin_vel_node_FoR A tst bm fb nb nn (define_FoR_dof bm nb)
        (define_node_dof bm nb nn) (define_FoR_dof bm fb) sys Ld sF pF ieq S).2
      (equal_lin_vel_node_FoR A tst bm fb nb nn (define_FoR_dof bm nb)
        (define_node_dof bm nb nn) (define_FoR_dof bm fb) sys Ld sF pF ieq S).1
      indep with _ | ⟨S2, ieq2, p⟩
  · rw [hax] at hres
    exact Option.noConfusion hres
  · rw [hax] at hres
    dsimp only at hres
    obtain rfl := Option.some.inj hres
    obtain ⟨hc2, hk2⟩ := symm_def_rot_axis A tst bm fb nb nn (define_FoR_dof bm nb)
      (define_node_dof bm nb nn) (define_FoR_dof bm fb) sys Ld axis sF pF _ N _
      indep h1 h2 h3 hc1 hk1 _ hax
    exact ⟨hc2, hk2⟩

lemma symm_hinge_node_cv (A : Alg) (tst : ℕ → TStep) (bm : ℕ → Beam)
    (nn nb fb : ℕ) (axis : Vec) (rv : Scal) (indep : Option (ℕ × ℕ)) (sys : ℕ)
    (Ld : Vec) (sF pF : Scal) (ieq N : ℕ) (S : LMState)
    (h1 : define_node_dof bm nb nn + 6 ≤ sys)
    (h2 : define_FoR_dof bm nb + 10 ≤ sys)
    (h3 : define_FoR_dof bm fb + 10 ≤ sys)
    (hC : SymmOff S.C sys N) (hK : SymmOff S.K sys N) :
    ∀ r, hinge_node_FoR_constant_vel_dynamicmat A tst bm nn nb fb axis rv indep sys
        Ld sF pF ieq S = some r →
      SymmOff r.1.C sys N ∧ SymmOff r.1.K sys N := by
  intro r hres
  unfold hinge_node_FoR_constant_vel_dynamicmat at hres
  dsimp only at hres
  obtain ⟨hc1, hk1⟩ := symm_equal_lin_vel A tst bm fb nb nn (define_FoR_dof bm nb)
    (define_node_dof bm nb nn) (define_FoR_dof bm fb) sys Ld sF pF ieq N S
    h1 h2 h3 hC hK
  rcases hax : def_rot_axis_FoR_wrt_node A tst bm fb nb nn (define_FoR_dof bm nb)
      (define_node_dof bm nb nn) (define_FoR_dof bm fb) sys Ld axis sF pF
      (equal_lin_vel_node_FoR A tst bm fb nb nn (define_FoR_dof bm nb)
        (define_node_dof bm nb nn) (define_FoR_dof bm fb) sys Ld sF pF ieq S).2
      (equal_lin_vel_node_FoR A tst bm fb nb nn (define_FoR_dof bm nb)
        (define_node_dof bm nb nn) (define_FoR_dof bm fb) sys Ld sF pF ieq S).1
      indep with _ | ⟨S2, ieq2, p⟩
  · rw [hax] at hres
    exact Option.noConfusion hres
  · rw [hax] at hres
    dsimp only at hres
    obtain rfl := Option.some.inj hres
    obtain ⟨hc2, hk2⟩ := symm_def_rot_axis A tst bm fb nb nn (define_FoR_dof bm nb)
      (define_node_dof bm nb nn) (define_FoR_dof bm fb) sys Ld axis sF pF _ N _
      indep h1 h2 h3 hc1 hk1 _ hax
    exact symm_def_rot_vel A tst bm fb nb nn (define_FoR_dof bm nb)
      (define_node_dof bm nb nn) (define_FoR_dof bm fb) sys Ld axis rv sF pF ieq2 N
      S2 h1 h2 h3 hc2 hk2

lemma symm_spherical_node (A : Alg) (tst : ℕ → TStep) (bm : ℕ → Beam)
    (nn nb fb : ℕ) (sys : ℕ) (Ld : Vec) (sF pF : Scal) (ieq N : ℕ) (S : LMState)
    (h1 : define_node_dof bm nb nn + 6 ≤ sys)
    (h2 : define_FoR_dof bm nb + 10 ≤ sys)
    (h3 : define_FoR_dof bm fb + 10 ≤ sys)
    (hC : SymmOff S.C sys N) (hK : SymmOff S.K sys N) :
    SymmOff (spherical_node_FoR_dynamicmat A tst bm nn nb fb sys Ld sF pF ieq S).C
      sys N ∧
    SymmOff (spherical_node_FoR_dynamicmat A tst bm nn nb fb sys Ld sF pF ieq S).K
      sys N := by
  unfold spherical_node_FoR_dynamicmat
  exact symm_equal_lin_vel A tst bm fb nb nn (define_FoR_dof bm nb)
    (define_node_dof bm nb nn) (define_FoR_dof bm fb) sys Ld sF pF ieq N S
    h1 h2 h3 hC hK

lemma symm_spherical_FoR (A : Alg) (tst : ℕ → TStep) (bm : ℕ → Beam)
    (b sys : ℕ) (Ld : Vec) (sF pF : Scal) (ieq N : ℕ) (S : LMState)
    (hC : SymmOff S.C sys N) (hK : SymmOff S.K sys N) :
    SymmOff (spherical_FoR_dynamicmat A tst bm b sys Ld sF pF ieq S).C sys N ∧
    SymmOff (spherical_FoR_dynamicmat A tst bm b sys Ld sF pF ieq S).K sys N := by
  unfold spherical_FoR_dynamicmat
  exact ⟨symmOff_addPair _ _ _ _ (smulM_trM_flip _ _) hC, hK⟩

lemma symm_hinge_FoR (A : Alg) (tst : ℕ → TStep) (bm : ℕ → Beam)
    (b sys : ℕ) (axis : Vec) (Ld : Vec) (sF pF : Scal) (ieq N : ℕ) (S : LMState)
    (hC : SymmOff S.C sys N) (hK : SymmOff S.K sys N) :
    ∀ r, hinge_FoR_dynamicmat A tst bm b axis sys Ld sF pF ieq S = some r →
      SymmOff r.C sys N ∧ SymmOff r.K sys N := by
  intro r hres
  unfold hinge_FoR_dynamicmat at hres
  dsimp only at hres
  rcases hsel : indepRows (A.skew axis) with _ | ⟨r0, r1⟩
  · rw [hsel] at hres
    exact Option.noConfusion hres
  · rw [hsel] at hres
    dsimp only at hres
    obtain rfl := Option.some.inj hres
    exact ⟨symmOff_addPair _ _ _ _ (smulM_trM_flip _ _) hC, hK⟩

lemma symm_hinge_FoR_wrtG (A : Alg) (tst : ℕ → TStep) (bm : ℕ → Beam)
    (b sys : ℕ) (axis : Vec) (Ld : Vec) (sF pF : Scal) (ieq N : ℕ) (S : LMState)
    (h3 : define_FoR_dof bm b + 10 ≤ sys)
    (hC : SymmOff S.C sys N) (hK : SymmOff S.K sys N) :
    ∀ r, hinge_FoR_wrtG_dynamicmat A tst bm b axis sys Ld sF pF ieq S = some r →
      SymmOff r.C sys N ∧ SymmOff r.K sys N := by
  intro r hres
  unfold hinge_FoR_wrtG_dynamicmat at hres
  dsimp only at hres
  rcases hsel : indepRows (A.skew axis) with _ | ⟨r0, r1⟩
  · rw [hsel] at hres
    exact Option.noConfusion hres
  · rw [hsel] at hres
    dsimp only at hres
    obtain rfl := Option.some.inj hres
    exact ⟨symmOff_addB_topLeft _ _ _ _ _ (by omega) (by omega)
      (symmOff_addPair _ _ _ _ (smulM_trM_flip _ _) hC), hK⟩

lemma symm_fully_constrained (A : Alg) (tst : ℕ → TStep) (bm : ℕ → Beam)
    (nn nb fb sys : ℕ) (Ld : Vec) (sF pF : Scal) (ieq N : ℕ) (S : LMState)
    (h1 : define_node_dof bm nb nn + 6 ≤ sys)
    (h3 : define_FoR_dof bm fb + 10 ≤ sys)
    (hC : SymmOff S.C sys N) (hK : SymmOff S.K sys N) :
    SymmOff (fully_constrained_node_FoR_dynamicmat A tst bm nn nb fb sys Ld sF pF
      ieq S).C sys N ∧
    SymmOff (fully_constrained_node_FoR_dynamicmat A tst bm nn nb fb sys Ld sF pF
      ieq S).K sys N := by
  unfold fully_constrained_node_FoR_dynamicmat
  refine ⟨?_, ?_⟩
  · exact symmOff_addB_topLeft _ _ _ _ _ (by omega) (by omega)
      (symmOff_addB_topLeft _ _ _ _ _ (by omega) (by omega)
      (symmOff_addPair _ _ _ _ (smulM_trM_flip _ _) hC))
  · exact symmOff_addB_topLeft _ _ _ _ _ (by omega) (by omega) hK

lemma symm_const_rot_vel (A : Alg) (tst : ℕ → TStep) (bm : ℕ → Beam)
    (b sys : ℕ) (rv : Vec) (Ld : Vec) (sF pF : Scal) (ieq N : ℕ) (S : LMState)
    (hC : SymmOff S.C sys N) (hK : SymmOff S.K sys N) :
    SymmOff (constant_rot_vel_FoR_dynamicmat A tst bm b rv sys Ld sF pF ieq S).C
      sys N ∧
    SymmOff (constant_rot_vel_FoR_dynamicmat A tst bm b rv sys Ld sF pF ieq S).K
      sys N := by
  unfold constant_rot_vel_FoR_dynamicmat
  exact ⟨symmOff_addPair _ _ _ _ (smulM_trM_flip _ _) hC, hK⟩

lemma symm_const_vel (A : Alg) (tst : ℕ → TStep) (bm : ℕ → Beam)
    (b sys : ℕ) (v : Vec) (Ld : Vec) (sF pF : Scal) (ieq N : ℕ) (S : LMState)
    (hC : SymmOff S.C sys N) (hK : SymmOff S.K sys N) :
    SymmOff (constant_vel_FoR_dynamicmat A tst bm b v sys Ld sF pF ieq S).C sys N ∧
    SymmOff (constant_vel_FoR_dynamicmat A tst bm b v sys Ld sF pF ieq S).K sys N := by
  unfold constant_vel_FoR_dynamicmat
  exact ⟨symmOff_addPair _ _ _ _ (smulM_trM_flip _ _) hC, hK⟩

lemma symm_lin_vel_wrtA_static (tst : ℕ → TStep) (bm : ℕ → Beam)
    (nn bn sys : ℕ) (L : Vec) (sF pF : Scal) (ieq N : ℕ) (S : LMState)
    (hC : SymmOff S.C sys N) (hK : SymmOff S.K sys N) :
    SymmOff (lin_vel_node_wrtA_staticmat tst bm nn bn sys L sF pF ieq S).C sys N ∧
    SymmOff (lin_vel_node_wrtA_staticmat tst bm nn bn sys L sF pF ieq S).K sys N := by
  unfold lin_vel_node_wrtA_staticmat
  exact ⟨hC, symmOff_addPair _ _ _ _ (smulM_trM_flip _ _) hK⟩

lemma symm_lin_vel_wrtA_dyn (tst : ℕ → TStep) (bm : ℕ → Beam)
    (nn bn : ℕ) (vel : VelSpec) (ts sys : ℕ) (Ld : Vec) (sF pF : Scal)
    (ieq N : ℕ) (S : LMState)
    (hC : SymmOff S.C sys N) (hK : SymmOff S.K sys N) :
    SymmOff (lin_vel_node_wrtA_dynamicmat tst bm nn bn vel ts sys Ld sF pF ieq S).C
      sys N ∧
    SymmOff (lin_vel_node_wrtA_dynamicmat tst bm nn bn vel ts sys Ld sF pF ieq S).K
      sys N := by
  unfold lin_vel_node_wrtA_dynamicmat
  exact ⟨symmOff_addPair _ _ _ _ (smulM_trM_flip _ _) hC, hK⟩

lemma symm_lin_vel_wrtG_static (A : Alg) (tst : ℕ → TStep) (bm : ℕ → Beam)
    (nn bn sys : ℕ) (L : Vec) (sF pF : Scal) (ieq N : ℕ) (S : LMState)
    (hC : SymmOff S.C sys N) (hK : SymmOff S.K sys N) :
    SymmOff (lin_vel_node_wrtG_staticmat A tst bm nn bn sys L sF pF ieq S).C sys N ∧
    SymmOff (lin_vel_node_wrtG_staticmat A tst bm nn bn sys L sF pF ieq S).K sys N := by
  unfold lin_vel_node_wrtG_staticmat
  exact ⟨hC, symmOff_addPair _ _ _ _ (smulM_trM_flip _ _) hK⟩

lemma symm_lin_vel_wrtG_dyn (A : Alg) (tst : ℕ → TStep) (bm : ℕ → Beam)
    (nn bn : ℕ) (vel : VelSpec) (ts sys : ℕ) (Ld : Vec) (sF pF : Scal)
    (ieq N : ℕ) (S : LMState)
    (h1 : define_node_dof bm bn nn + 6 ≤ sys)
    (h2 : define_FoR_dof bm bn + 10 ≤ sys)
    (hC : SymmOff S.C sys N) (hK : SymmOff S.K sys N) :
    SymmOff (lin_vel_node_wrtG_dynamicmat A tst bm nn bn vel ts sys Ld sF pF ieq S).C
      sys N ∧
    SymmOff (lin_vel_node_wrtG_dynamicmat A tst bm nn bn vel ts sys Ld sF pF ieq S).K
      sys N := by
  unfold lin_vel_node_wrtG_dynamicmat
  by_cases hfree : (bm bn).FoR_movement = Movement.free
  · simp only [hfree, reduceIte]
    refine ⟨?_, ?_⟩
    · exact symmOff_addB_topLeft _ _ _ _ _ (by omega) (by omega)
        (symmOff_addB_topLeft _ _ _ _ _ (by omega) (by omega)
        (symmOff_addB_topLeft _ _ _ _ _ (by omega) (by omega)
        (symmOff_addPair _ _ _ _ (smulM_trM_flip _ _) hC)))
    · exact symmOff_addB_topLeft _ _ _ _ _ (by omega) (by omega) hK
  · simp only [hfree, reduceIte]
    exact ⟨symmOff_addPair _ _ _ _ (smulM_trM_flip _ _) hC, hK⟩

/-- C2: for every constraint variant and both assembly modes, applied to
zero-initialized matrices, the sub-blocks written at
`[sys_size:, :sys_size]` and `[:sys_size, sys_size:]` of both the damping
and the stiffness matrix are mutual transposes (both carry the same
`scalingFactor`-scaled Jacobian), provided the constraint's DOF targets are
in range (spec §4.1 caller contract). -/
theorem contribution_coupling_blocks_transposed (A : Alg) (mode : CMode)
    (lc : LCTyped) (tst : ℕ → TStep) (bm : ℕ → Beam) (ts num_LM_eq sys_size : ℕ)
    (Lambda Lambda_dot : Vec) (sF pF : Scal) (ieq : ℕ)
    (hv : ValidDofs lc bm sys_size) :
    ∀ S', contribution A mode lc tst bm ts sys_size Lambda Lambda_dot sF pF ieq
        { C := zeroM, K := zeroM, Q := zeroV } = some S' →
      ∀ i, i < num_LM_eq → ∀ j, j < sys_size →
        S'.C (sys_size + i) j = S'.C j (sys_size + i) ∧
        S'.K (sys_size + i) j = S'.K j (sys_size + i) := by
  intro S' hres i hi j hj
  have hz : SymmOff zeroM sys_size num_LM_eq := symmOff_zero sys_size num_LM_eq
  suffices h : SymmOff S'.C sys_size num_LM_eq ∧ SymmOff S'.K sys_size num_LM_eq by
    exact ⟨h.1 i hi j hj, h.2 i hi j hj⟩
  cases mode with
  | static =>
      cases lc with
      | lin_vel_node_wrtA nn bn vel =>
          unfold contribution at hres
          obtain rfl := Option.some.inj hres
          exact symm_lin_vel_wrtA_static tst bm nn bn sys_size Lambda sF pF ieq
            num_LM_eq _ hz hz
      | lin_vel_node_wrtG nn bn vel =>
          unfold contribution at hres
          obtain rfl := Option.some.inj hres
          exact symm_lin_vel_wrtG_static A tst bm nn bn sys_size Lambda sF pF ieq
            num_LM_eq _ hz hz
      | hinge_node_FoR nn nb fb axis indep =>
          obtain rfl := Option.some.inj hres
          exact ⟨hz, hz⟩
      | hinge_node_FoR_constant_vel nn nb fb axis rv indep =>
          obtain rfl := Option.some.inj hres
          exact ⟨hz, hz⟩
      | spherical_node_FoR nn nb fb =>
          obtain rfl := Option.some.inj hres
          exact ⟨hz, hz⟩
      | free =>
          obtain rfl := Option.some.inj hres
          exact ⟨hz, hz⟩
      | spherical_FoR b =>
          obtain rfl := Option.some.inj hres
          exact ⟨hz, hz⟩
      | hinge_FoR b axis =>
          obtain rfl := Option.some.inj hres
          exact ⟨hz, hz⟩
      | hinge_FoR_wrtG b axis =>
          obtain rfl := Option.some.inj hres
          exact ⟨hz, hz⟩
      | fully_constrained_node_FoR nn nb fb =>
          obtain rfl := Option.some.inj hres
          exact ⟨hz, hz⟩
      | constant_rot_vel_FoR b rv =>
          obtain rfl := Option.some.inj hres
          exact ⟨hz, hz⟩
      | constant_vel_FoR b v =>
          obtain rfl := Option.some.inj hres
          exact ⟨hz, hz⟩
  | dynamic =>
      cases lc with
      | hinge_node_FoR nn nb fb axis indep =>
          unfold contribution at hres
          obtain ⟨r, hr, hfst⟩ := Option.map_eq_some'.mp hres
          obtain ⟨hc, hk⟩ := symm_hinge_node A tst bm nn nb fb axis indep sys_size
            Lambda_dot sF pF ieq num_LM_eq _ hv.1 hv.2.1 hv.2.2 hz hz r hr
          rw [← hfst]
          exact ⟨hc, hk⟩
      | hinge_node_FoR_constant_vel nn nb fb axis rv indep =>
          unfold contribution at hres
          obtain ⟨r, hr, hfst⟩ := Option.map_eq_some'.mp hres
          obtain ⟨hc, hk⟩ := symm_hinge_node_cv A tst bm nn nb fb axis rv indep
            sys_size Lambda_dot sF pF ieq num_LM_eq _ hv.1 hv.2.1 hv.2.2 hz hz r hr
          rw [← hfst]
          exact ⟨hc, hk⟩
      | spherical_node_FoR nn nb fb =>
          unfold contribution at hres
          obtain rfl := Option.some.inj hres
          exact symm_spherical_node A tst bm nn nb fb sys_size Lambda_dot sF pF ieq
            num_LM_eq _ hv.1 hv.2.1 hv.2.2 hz hz
      | free =>
          obtain rfl := Option.some.inj hres
          exact ⟨hz, hz⟩
      | spherical_FoR b =>
          unfold contribution at hres
          obtain rfl := Option.some.inj hres
          exact symm_spherical_FoR A tst bm b sys_size Lambda_dot sF pF ieq
            num_LM_eq _ hz hz
      | hinge_FoR b axis =>
          unfold contribution at hres
          exact symm_hinge_FoR A tst bm b sys_size axis Lambda_dot sF pF ieq
            num_LM_eq _ hz hz S' hres
      | hinge_FoR_wrtG b axis =>
          unfold contribution at hres
          exact symm_hinge_FoR_wrtG A tst bm b sys_size axis Lambda_dot sF pF ieq
            num_LM_eq _ hv hz hz S' hres
      | fully_constrained_node_FoR nn nb fb =>
          unfold contribution at hres
          obtain rfl := Option.some.inj hres
          exact symm_fully_constrained A tst bm nn nb fb sys_size Lambda_dot sF pF
            ieq num_LM_eq _ hv.1 hv.2 hz hz
      | constant_rot_vel_FoR b rv =>
          unfold contribution at hres
          obtain rfl := Option.some.inj hres
          exact symm_const_rot_vel A tst bm b sys_size rv Lambda_dot sF pF ieq
            num_LM_eq _ hz hz
      | constant_vel_FoR b v =>
          unfold contribution at hres
          obtain rfl := Option.some.inj hres
          exact symm_const_vel A tst bm b sys_size v Lambda_dot sF pF ieq
            num_LM_eq _ hz hz
      | lin_vel_node_wrtA nn bn vel =>
          unfold contribution at hres
          obtain rfl := Option.some.inj hres
          exact symm_lin_vel_wrtA_dyn tst bm nn bn vel ts sys_size Lambda_dot sF pF
            ieq num_LM_eq _ hz hz
      | lin_vel_node_wrtG nn bn vel =>
          unfold contribution at hres
          obtain rfl := Option.some.inj hres
          exact symm_lin_vel_wrtG_dyn A tst bm nn bn vel ts sys_size Lambda_dot sF
            pF ieq num_LM_eq _ hv.1 hv.2 hz hz

/-- A concrete 12-DOF free body whose vertex-DOF table is the identity. -/
def constBeam : Beam where
  num_dof := 12
  FoR_movement := Movement.free
  vdof := fun n => n
  node_master_elem := fun _ => (0, 0)
  ini_info := { pos := fun _ => zeroV, quat := zeroV, for_pos := zeroV }
  global_elems_num := []
  global_nodes_num := []

/-- A concrete all-zero time step for a 12-DOF free body. -/
def constTStep : TStep where
  pos := fun _ => zeroV
  pos_dot := fun _ => zeroV
  pos_ddot := fun _ => zeroV
  psi := fun _ _ => zeroV
  psi_dot := fun _ _ => zeroV
  psi_ddot := fun _ _ => zeroV
  quat := zeroV
  for_pos := zeroV
  for_vel := zeroV
  for_acc := zeroV
  q := zeroV
  dqdt := zeroV
  dqddt := zeroV
  qsize := 22
  nnodes := 4
  gravity_forces := fun _ => zeroV
  forces_constraints_nodes := fun _ => zeroV
  forces_constraints_FoR := fun _ => zeroV
  mb_FoR_pos := fun _ => zeroV
  mb_FoR_vel := fun _ => zeroV
  mb_FoR_acc := fun _ => zeroV
  mb_quat := fun _ => zeroV
  mb_dquatdt := fun _ => zeroV

/-- C2 witness: the symmetry theorem applied to a concrete
`spherical_node_FoR` dynamic contribution on a single 12-DOF free body with
`sys_size = 22`. -/
theorem contribution_coupling_blocks_transposed_witness :
    ValidDofs (LCTyped.spherical_node_FoR 0 0 0) (fun _ => constBeam) 22 ∧
    (∀ S', contribution zeroAlg CMode.dynamic (LCTyped.spherical_node_FoR 0 0 0)
        (fun _ => constTStep) (fun _ => constBeam) 1 22 zeroV zeroV 1 0 0
        { C := zeroM, K := zeroM, Q := zeroV } = some S' →
      ∀ i, i < 3 → ∀ j, j < 22 →
        S'.C (22 + i) j = S'.C j (22 + i) ∧ S'.K (22 + i) j = S'.K j (22 + i)) :=
  ⟨⟨by decide, by decide, by decide⟩,
   contribution_coupling_blocks_transposed zeroAlg CMode.dynamic
     (LCTyped.spherical_node_FoR 0 0 0) (fun _ => constTStep) (fun _ => constBeam)
     1 3 22 zeroV zeroV 1 0 0 ⟨by decide, by decide, by decide⟩⟩

/-!  ## Rotation-axis row selection (C3, C5) -/

/-- The complementary pair kept when row `k` is dropped. -/
def pairExcluding : ℕ → ℕ × ℕ
  | 0 => (1, 2)
  | 1 => (0, 2)
  | _ => (0, 1)

lemma indepRows_strict_min (M : Mat) (p : ℕ × ℕ) (h : indepRows M = some p) :
    ∃ k, k < 3 ∧ (∀ l, l < 3 → l ≠ k → rowNormSq M k < rowNormSq M l) ∧
      p = pairExcluding k := by
  unfold indepRows at h
  by_cases h0 : rowNormSq M 0 < rowNormSq M 1 ∧ rowNormSq M 0 < rowNormSq M 2
  · rw [if_pos h0] at h
    obtain rfl := (Option.some.inj h).symm
    refine ⟨0, by omega, ?_, rfl⟩
    intro l hl hne
    interval_cases l
    · omega
    · exact h0.1
    · exact h0.2
  · rw [if_neg h0] at h
    by_cases h1 : rowNormSq M 1 < rowNormSq M 0 ∧ rowNormSq M 1 < rowNormSq M 2
    · rw [if_pos h1] at h
      obtain rfl := (Option.some.inj h).symm
      refine ⟨1, by omega, ?_, rfl⟩
      intro l hl hne
      interval_cases l
      · exact h1.1
      · omega
      · exact h1.2
    · rw [if_neg h1] at h
      by_cases h2 : rowNormSq M 2 < rowNormSq M 0 ∧ rowNormSq M 2 < rowNormSq M 1
      · rw [if_pos h2] at h
        obtain rfl := (Option.some.inj h).symm
        refine ⟨2, by omega, ?_, rfl⟩
        intro l hl hne
        interval_cases l
        · exact h2.1
        · exact h2.2
        · omega
      · rw [if_neg h2] at h
        exact Option.noConfusion h

/-- C3: the rotation-axis-alignment kernel selects its 2 independent rows as
the pair complementary to the strictly-smallest-norm row of the selection
matrix, lazily: (a) a cached pair (`self.indep` nonempty) is returned
unchanged — no recomputation, whatever the current kinematics; (b) with an
empty cache the pair given by the current selection matrix is used and
returned for storing; (c) a selected pair is always the complement of a row
whose norm is strictly below both others; (d) `initialise` leaves the cache
undetermined.  Hence a first evaluation fixes the pair and every repeated
call (same axis and orientation or not) returns that same pair. -/
theorem rot_axis_selection_lazy_cached (A : Alg) (tst : ℕ → TStep) (bm : ℕ → Beam)
    (fb nb nn nFoR nd fd sys : ℕ) (Ld axis : Vec) (sF pF : Scal) :
    (∀ (p : ℕ × ℕ) (ieq : ℕ) (S : LMState), ∃ S2,
      def_rot_axis_FoR_wrt_node A tst bm fb nb nn nFoR nd fd sys Ld axis sF pF
        ieq S (some p) = some (S2, ieq + 2, p)) ∧
    (∀ (p : ℕ × ℕ) (ieq : ℕ) (S : LMState),
      indepRows (rotAxisProd A tst bm fb nb nn axis) = some p → ∃ S2,
      def_rot_axis_FoR_wrt_node A tst bm fb nb nn nFoR nd fd sys Ld axis sF pF
        ieq S none = some (S2, ieq + 2, p)) ∧
    (∀ p : ℕ × ℕ, indepRows (rotAxisProd A tst bm fb nb nn axis) = some p →
      ∃ k, k < 3 ∧
        (∀ l, l < 3 → l ≠ k →
          rowNormSq (rotAxisProd A tst bm fb nb nn axis) k <
            rowNormSq (rotAxisProd A tst bm fb nb nn axis) l) ∧
        p = pairExcluding k) ∧
    (∀ (k : LCKind) (e : Entry) (i : ℕ) (r : LCObj × ℕ),
      lc_initialise k e i = .ok r → r.1.indep = none) := by
  refine ⟨?_, ?_, ?_, ?_⟩
  · rintro ⟨i0, i1⟩ ieq S
    exact ⟨_, rfl⟩
  · rintro ⟨i0, i1⟩ ieq S hsel
    unfold def_rot_axis_FoR_wrt_node
    dsimp only
    rw [hsel]
    exact ⟨_, rfl⟩
  · intro p hsel
    exact indepRows_strict_min _ p hsel
  · intro k e i r hok
    unfold lc_initialise at hok
    cases hr : readParams e (paramReadOrder k) with
    | error er => rw [hr] at hok; exact Except.noConfusion hok
    | ok fs =>
        rw [hr] at hok
        injection hok with h1
        rw [← h1]

/-- The abstract algebra instantiated with the real cross-product skew and
identity rotation operators, for concrete selection computations. -/
def rotAlg : Alg :=
  { zeroAlg with
      skew := crossSkew
      quat2rotation := fun _ => eye3
      crv2rotation := fun _ => eye3 }

/-- The z-axis. -/
def axisZ : Vec := fun i => if i = 2 then 1 else 0

/-- C3 witness: with the cross-product skew, identity orientations and the
z-axis, the selection matrix's row 2 is the zero row, so the kernel selects
and caches the pair (0, 1); the theorem's cached-reuse part applies to it. -/
theorem rot_axis_selection_lazy_cached_witness :
    indepRows (rotAxisProd rotAlg (fun _ => constTStep) (fun _ => constBeam)
      0 0 0 axisZ) = some (0, 1) ∧
    (∃ S2, def_rot_axis_FoR_wrt_node rotAlg (fun _ => constTStep)
      (fun _ => constBeam) 0 0 0 12 0 12 22 zeroV axisZ 1 0 0
      { C := zeroM, K := zeroM, Q := zeroV } none = some (S2, 0 + 2, (0, 1))) ∧
    (∀ (p : ℕ × ℕ) (ieq : ℕ) (S : LMState), ∃ S2,
      def_rot_axis_FoR_wrt_node rotAlg (fun _ => constTStep) (fun _ => constBeam)
        0 0 0 12 0 12 22 zeroV axisZ 1 0 ieq S (some p) = some (S2, ieq + 2, p)) :=
  ⟨by decide,
   (rot_axis_selection_lazy_cached rotAlg (fun _ => constTStep) (fun _ => constBeam)
     0 0 0 12 0 12 22 zeroV axisZ 1 0).2.1 (0, 1) 0
     { C := zeroM, K := zeroM, Q := zeroV } (by decide),
   (rot_axis_selection_lazy_cached rotAlg (fun _ => constTStep) (fun _ => constBeam)
     0 0 0 12 0 12 22 zeroV axisZ 1 0).1⟩

/-- The condition under which the hinge row selections are defined: the
cached pair exists or the current selection matrix has a strictly
smallest-norm row (for the node-hinge kinds), resp. the axis' skew matrix
has one (for the FoR-hinge kinds); vacuous for every other kind. -/
def selectionOkB (A : Alg) (tst : ℕ → TStep) (bm : ℕ → Beam) : LCTyped → Bool
  | .hinge_node_FoR nn nb fb axis indep =>
      indep.isSome || (indepRows (rotAxisProd A tst bm fb nb nn axis)).isSome
  | .hinge_node_FoR_constant_vel nn nb fb axis _ indep =>
      indep.isSome || (indepRows (rotAxisProd A tst bm fb nb nn axis)).isSome
  | .hinge_FoR _ axis => (indepRows (A.skew axis)).isSome
  | .hinge_FoR_wrtG _ axis => (indepRows (A.skew axis)).isSome
  | _ => true

lemma def_rot_axis_some (A : Alg) (tst : ℕ → TStep) (bm : ℕ → Beam)
    (fb nb nn nFoR nd fd sys : ℕ) (Ld axis : Vec) (sF pF : Scal) (ieq : ℕ)
    (S : LMState) (indep : Option (ℕ × ℕ))
    (h : (indep.isSome || (indepRows (rotAxisProd A tst bm fb nb nn axis)).isSome)
      = true) :
    ∃ r, def_rot_axis_FoR_wrt_node A tst bm fb nb nn nFoR nd fd sys Ld axis sF pF
      ieq S indep = some r := by
  rcases indep with _ | ⟨i0, i1⟩
  · simp only [Option.isSome_none, Bool.false_or] at h
    rcases hsel : indepRows (rotAxisProd A tst bm fb nb nn axis) with _ | ⟨i0, i1⟩
    · rw [hsel] at h; exact Bool.noConfusion h
    · unfold def_rot_axis_FoR_wrt_node
      dsimp only
      rw [hsel]
      exact ⟨_, rfl⟩
  · exact ⟨_, rfl⟩

/-- C5 (amended: provided each hinge kind's independent-row selection is
defined, i.e. its cache is set or the row norms admit a strict minimum; see
the counterexample for a norm tie): every static or dynamic contribution of
every constraint kind completes, producing updated matrices and residual
vector. -/
theorem contribution_total_when_selection_defined (A : Alg) (mode : CMode)
    (lc : LCTyped) (tst : ℕ → TStep) (bm : ℕ → Beam) (ts sys_size : ℕ)
    (Lambda Lambda_dot : Vec) (sF pF : Scal) (ieq : ℕ) (S : LMState)
    (hsel : selectionOkB A tst bm lc = true) :
    ∃ S', contribution A mode lc tst bm ts sys_size Lambda Lambda_dot sF pF ieq S
      = some S' := by
  cases mode with
  | static =>
      cases lc with
      | lin_vel_node_wrtA nn bn vel => exact ⟨_, rfl⟩
      | lin_vel_node_wrtG nn bn vel => exact ⟨_, rfl⟩
      | hinge_node_FoR nn nb fb axis indep => exact ⟨_, rfl⟩
      | hinge_node_FoR_constant_vel nn nb fb axis rv indep => exact ⟨_, rfl⟩
      | spherical_node_FoR nn nb fb => exact ⟨_, rfl⟩
      | free => exact ⟨_, rfl⟩
      | spherical_FoR b => exact ⟨_, rfl⟩
      | hinge_FoR b axis => exact ⟨_, rfl⟩
      | hinge_FoR_wrtG b axis => exact ⟨_, rfl⟩
      | fully_constrained_node_FoR nn nb fb => exact ⟨_, rfl⟩
      | constant_rot_vel_FoR b rv => exact ⟨_, rfl⟩
      | constant_vel_FoR b v => exact ⟨_, rfl⟩
  | dynamic =>
      cases lc with
      | hinge_node_FoR nn nb fb axis indep =>
          have hsel' : (indep.isSome ||
              (indepRows (rotAxisProd A tst bm fb nb nn axis)).isSome) = true := hsel
          obtain ⟨r, hr⟩ := def_rot_axis_some A tst bm fb nb nn
            (define_FoR_dof bm nb) (define_node_dof bm nb nn) (define_FoR_dof bm fb)
            sys_size Lambda_dot axis sF pF
            (equal_lin_vel_node_FoR A tst bm fb nb nn (define_FoR_dof bm nb)
              (define_node_dof bm nb nn) (define_FoR_dof bm fb) sys_size Lambda_dot
              sF pF ieq S).2
            (equal_lin_vel_node_FoR A tst bm fb nb nn (define_FoR_dof bm nb)
              (define_node_dof bm nb nn) (define_FoR_dof bm fb) sys_size Lambda_dot
              sF pF ieq S).1 indep hsel'
          unfold contribution hinge_node_FoR_dynamicmat
          dsimp only
          rw [hr]
          obtain ⟨S2, ieq2, p⟩ := r
          exact ⟨_, rfl⟩
      | hinge_node_FoR_constant_vel nn nb fb axis rv indep =>
          have hsel' : (indep.isSome ||
              (indepRows (rotAxisProd A tst bm fb nb nn axis)).isSome) = true := hsel
          obtain ⟨r, hr⟩ := def_rot_axis_some A tst bm fb nb nn
            (define_FoR_dof bm nb) (define_node_dof bm nb nn) (define_FoR_dof bm fb)
            sys_size Lambda_dot axis sF pF
            (equal_lin_vel_node_FoR A tst bm fb nb nn (define_FoR_dof bm nb)
              (define_node_dof bm nb nn) (define_FoR_dof bm fb) sys_size Lambda_dot
              sF pF ieq S).2
            (equal_lin_vel_node_FoR A tst bm fb nb nn (define_FoR_dof bm nb)
              (define_node_dof bm nb nn) (define_FoR_dof bm fb) sys_size Lambda_dot
              sF pF ieq S).1 indep hsel'
          unfold contribution hinge_node_FoR_constant_vel_dynamicmat
          dsimp only
          rw [hr]
          obtain ⟨S2, ieq2, p⟩ := r
          exact ⟨_, rfl⟩
      | spherical_node_FoR nn nb fb => exact ⟨_, rfl⟩
      | free => exact ⟨_, rfl⟩
      | spherical_FoR b => exact ⟨_, rfl⟩
      | hinge_FoR b axis =>
          have hsel' : (indepRows (A.skew axis)).isSome = true := hsel
          rcases hs : indepRows (A.skew axis) with _ | ⟨r0, r1⟩
          · rw [hs] at hsel'; exact Bool.noConfusion hsel'
          · unfold contribution hinge_FoR_dynamicmat
            dsimp only
            rw [hs]
            exact ⟨_, rfl⟩
      | hinge_FoR_wrtG b axis =>
          have hsel' : (indepRows (A.skew axis)).isSome = true := hsel
          rcases hs : indepRows (A.skew axis) with _ | ⟨r0, r1⟩
          · rw [hs] at hsel'; exact Bool.noConfusion hsel'
          · unfold contribution hinge_FoR_wrtG_dynamicmat
            dsimp only
            rw [hs]
            exact ⟨_, rfl⟩
      | fully_constrained_node_FoR nn nb fb => exact ⟨_, rfl⟩
      | constant_rot_vel_FoR b rv => exact ⟨_, rfl⟩
      | constant_vel_FoR b v => exact ⟨_, rfl⟩
      | lin_vel_node_wrtA nn bn vel => exact ⟨_, rfl⟩
      | lin_vel_node_wrtG nn bn vel => exact ⟨_, rfl⟩

/-- The axis (1,1,1): all three rows of its skew matrix have norm √2. -/
def tieAxis : Vec := fun i => if i < 3 then 1 else 0

/-- The algebra collaborator with only the skew operator made concrete. -/
def skewOnlyAlg : Alg := { zeroAlg with skew := crossSkew }

/-- C5 counterexample: on the valid rotation axis (1,1,1) all three skew
rows have equal norm, no strict minimum exists, and `hinge_FoR`'s dynamic
contribution crashes (`row0`/`row1` unbound in the source) instead of
completing — refuting "no contribution method fails for any rotation axis
vector". -/
theorem contribution_can_fail_on_norm_tie :
    indepRows (crossSkew tieAxis) = none ∧
    contribution skewOnlyAlg CMode.dynamic (LCTyped.hinge_FoR 0 tieAxis)
      (fun _ => constTStep) (fun _ => constBeam) 1 22 zeroV zeroV 1 0 0
      { C := zeroM, K := zeroM, Q := zeroV } = none :=
  ⟨by decide, rfl⟩

/-- C5 witness: the amended totality theorem applied to a concrete
`hinge_FoR` on the z-axis, whose selection is defined. -/
theorem contribution_total_when_selection_defined_witness :
    selectionOkB skewOnlyAlg (fun _ => constTStep) (fun _ => constBeam)
      (LCTyped.hinge_FoR 0 axisZ) = true ∧
    ∃ S', contribution skewOnlyAlg CMode.dynamic (LCTyped.hinge_FoR 0 axisZ)
      (fun _ => constTStep) (fun _ => constBeam) 1 22 zeroV zeroV 1 0 0
      { C := zeroM, K := zeroM, Q := zeroV } = some S' :=
  ⟨by decide,
   contribution_total_when_selection_defined skewOnlyAlg CMode.dynamic
     (LCTyped.hinge_FoR 0 axisZ) (fun _ => constTStep) (fun _ => constBeam) 1 22
     zeroV zeroV 1 0 0 { C := zeroM, K := zeroM, Q := zeroV } (by decide)⟩

/-!  ## Multibody merge (source `sharpy/utils/multibody.py`)

Numpy fancy-indexed row assignments (`tstep.pos[ibody_nodes,:] = ...`)
become `setRows`; vector segment assignments become `setSeg`.  The number of
bodies (`beam.num_bodies`, equal to `len(MB_tstep)`) is passed explicitly. -/

/-- Row assignment `M[i,:] = v`. -/
def setRow (M : ℕ → Vec) (i : ℕ) (v : Vec) : ℕ → Vec :=
  fun r => if r = i then v else M r

/-- Fancy-indexed assignment `M[rows,:] = src`: global row `rows[j]` receives
source row `j`. -/
def setRows (M : ℕ → Vec) (rows : List ℕ) (src : ℕ → Vec) : ℕ → Vec :=
  fun r =>
    match rows.findIdx? (fun x => x == r) with
    | some j => src j
    | none => M r

/-- Fancy-indexed assignment for per-element arrays
(`M[elems,:,:] = src`). -/
def setRows2 (M : ℕ → ℕ → Vec) (rows : List ℕ) (src : ℕ → ℕ → Vec) : ℕ → ℕ → Vec :=
  fun r =>
    match rows.findIdx? (fun x => x == r) with
    | some j => src j
    | none => M r

/-- Segment assignment `v[off : off+len] = w` (overwrite, not add). -/
def setSeg (v : Vec) (off len : ℕ) (w : Vec) : Vec := fun i =>
  if off ≤ i ∧ i < off + len then w (i - off) else v i

/-- The `assert` of `update_mb_dB_before_merge` for body `i`: the
quaternion-derivative stored in the body's own database row equals the last
4 entries of that body's `dqddt`. -/
def dquatdtMatchB (MB_tstep : ℕ → TStep) (i : ℕ) : Bool :=
  (List.range 4).all fun j =>
    (MB_tstep i).mb_dquatdt i j == (MB_tstep i).dqddt ((MB_tstep i).qsize - 4 + j)

/-- The body loop of `update_mb_dB_before_merge` (multibody.py:171-191):
record each body's frame position/velocity/acceleration/quaternion and
quaternion derivative into the composite database, asserting consistency
("Error in multibody storage") body by body. -/
def updateDbAux (MB_tstep : ℕ → TStep) : List ℕ → TStep → Except Err TStep
  | [], acc => .ok acc
  | i :: rest, acc =>
      if dquatdtMatchB MB_tstep i then
        updateDbAux MB_tstep rest
          { acc with
              mb_FoR_pos := setRow acc.mb_FoR_pos i (MB_tstep i).for_pos
              mb_FoR_vel := setRow acc.mb_FoR_vel i (MB_tstep i).for_vel
              mb_FoR_acc := setRow acc.mb_FoR_acc i (MB_tstep i).for_acc
              mb_quat := setRow acc.mb_quat i (MB_tstep i).quat
              mb_dquatdt := setRow acc.mb_dquatdt i
                (fun j => (MB_tstep i).dqddt ((MB_tstep i).qsize - 4 + j)) }
      else .error .multibodyStorage

/-- `update_mb_dB_before_merge` over all bodies. -/
def update_mb_dB_before_merge (tstep : TStep) (MB_tstep : ℕ → TStep)
    (num_bodies : ℕ) : Except Err TStep :=
  updateDbAux MB_tstep (List.range num_bodies) tstep

/-- One iteration of the merge body loop (multibody.py:83-109): scatter the
body's nodal/element fields into the composite arrays, copy its first
`num_dof` state entries into the composite state vectors at `first_dof`,
refresh its `mb_dquatdt` row, and advance `first_dof`. -/
def mergeBodyStep (MB_tstep : ℕ → TStep) (MB_beam : ℕ → Beam) (acc : TStep × ℕ)
    (i : ℕ) : TStep × ℕ :=
  let t := acc.1
  let first_dof := acc.2
  let bt := MB_tstep i
  let ibody_elems := (MB_beam i).global_elems_num
  let ibody_nodes := (MB_beam i).global_nodes_num
  let ibody_num_dof := (MB_beam i).num_dof
  ({ t with
      pos := setRows t.pos ibody_nodes bt.pos
      pos_dot := setRows t.pos_dot ibody_nodes bt.pos_dot
      pos_ddot := setRows t.pos_ddot ibody_nodes bt.pos_ddot
      psi := setRows2 t.psi ibody_elems bt.psi
      psi_dot := setRows2 t.psi_dot ibody_elems bt.psi_dot
      psi_ddot := setRows2 t.psi_ddot ibody_elems bt.psi_ddot
      gravity_forces := setRows t.gravity_forces ibody_nodes bt.gravity_forces
      forces_constraints_nodes :=
        setRows t.forces_constraints_nodes ibody_nodes bt.forces_constraints_nodes
      forces_constraints_FoR :=
        setRow t.forces_constraints_FoR i (bt.forces_constraints_FoR i)
      q := setSeg t.q first_dof ibody_num_dof bt.q
      dqdt := setSeg t.dqdt first_dof ibody_num_dof bt.dqdt
      dqddt := setSeg t.dqddt first_dof ibody_num_dof bt.dqddt
      mb_dquatdt := setRow t.mb_dquatdt i
        (fun j => bt.dqddt (bt.qsize - 4 + j)) },
   first_dof + ibody_num_dof)

/-- `merge_multibody` (multibody.py:59-119): run the database update (with
its consistency assertion), merge each body in body order, then copy the
trailing 10 state entries and the frame fields from body 0. -/
def merge_multibody (MB_tstep : ℕ → TStep) (MB_beam : ℕ → Beam)
    (num_bodies : ℕ) (tstep : TStep) : Except Err TStep :=
  match update_mb_dB_before_merge tstep MB_tstep num_bodies with
  | .error er => .error er
  | .ok t1 =>
      let t2 := ((List.range num_bodies).foldl (mergeBodyStep MB_tstep MB_beam)
        (t1, 0)).1
      .ok { t2 with
        q := setSeg t2.q (t2.qsize - 10) 10
          (fun k => (MB_tstep 0).q ((MB_tstep 0).qsize - 10 + k))
        dqdt := setSeg t2.dqdt (t2.qsize - 10) 10
          (fun k => (MB_tstep 0).dqdt ((MB_tstep 0).qsize - 10 + k))
        dqddt := setSeg t2.dqddt (t2.qsize - 10) 10
          (fun k => (MB_tstep 0).dqddt ((MB_tstep 0).qsize - 10 + k))
        for_pos := (MB_tstep 0).for_pos
        for_vel := (MB_tstep 0).for_vel
        for_acc := (MB_tstep 0).for_acc
        quat := (MB_tstep 0).quat }

lemma updateDbAux_qsize (MB_tstep : ℕ → TStep) (idxs : List ℕ) :
    ∀ acc t1, updateDbAux MB_tstep idxs acc = .ok t1 → t1.qsize = acc.qsize := by
  induction idxs with
  | nil =>
      intro acc t1 h
      injection h with h
      rw [← h]
  | cons i rest ih =>
      intro acc t1 h
      unfold updateDbAux at h
      by_cases hm : dquatdtMatchB MB_tstep i
      · rw [if_pos hm] at h
        exact (ih _ _ h).trans rfl
      · rw [if_neg hm] at h
        exact Except.noConfusion h

lemma updateDbAux_ok_iff (MB_tstep : ℕ → TStep) (idxs : List ℕ) :
    ∀ acc, (∃ t1, updateDbAux MB_tstep idxs acc = .ok t1) ↔
      ∀ i ∈ idxs, dquatdtMatchB MB_tstep i = true := by
  induction idxs with
  | nil =>
      intro acc
      constructor
      · intro _ i hi
        simp at hi
      · intro _
        exact ⟨acc, rfl⟩
  | cons i rest ih =>
      intro acc
      constructor
      · rintro ⟨t1, h⟩ i' hi'
        unfold updateDbAux at h
        by_cases hm : dquatdtMatchB MB_tstep i
        · rcases List.mem_cons.mp hi' with rfl | hmem
          · exact hm
          · rw [if_pos hm] at h
            exact (ih _).mp ⟨t1, h⟩ i' hmem
        · rw [if_neg hm] at h
          exact Except.noConfusion h
      · intro hall
        have hm : dquatdtMatchB MB_tstep i = true :=
          hall i (List.mem_cons_self i rest)
        obtain ⟨t1, h⟩ := (ih _).mpr fun i' hi' => hall i' (List.mem_cons_of_mem i hi')
        refine ⟨t1, ?_⟩
        unfold updateDbAux
        rw [if_pos hm]
        exact h

lemma updateDbAux_frame (MB_tstep : ℕ → TStep) (idxs : List ℕ) :
    ∀ acc t1, updateDbAux MB_tstep idxs acc = .ok t1 → ∀ r, r ∉ idxs →
      t1.mb_FoR_pos r = acc.mb_FoR_pos r ∧ t1.mb_FoR_vel r = acc.mb_FoR_vel r ∧
      t1.mb_FoR_acc r = acc.mb_FoR_acc r ∧ t1.mb_quat r = acc.mb_quat r := by
  induction idxs with
  | nil =>
      intro acc t1 h r _
      injection h with h
      rw [← h]
      exact ⟨rfl, rfl, rfl, rfl⟩
  | cons i rest ih =>
      intro acc t1 h r hr
      have hri : r ≠ i := fun hc => hr (hc ▸ List.mem_cons_self i rest)
      have hrrest : r ∉ rest := fun hc => hr (List.mem_cons_of_mem i hc)
      unfold updateDbAux at h
      by_cases hm : dquatdtMatchB MB_tstep i
      · rw [if_pos hm] at h
        obtain ⟨h1, h2, h3, h4⟩ := ih _ _ h r hrrest
        rw [h1, h2, h3, h4]
        simp [setRow, hri]
      · rw [if_neg hm] at h
        exact Except.noConfusion h

lemma updateDbAux_mem (MB_tstep : ℕ → TStep) (idxs : List ℕ) (hnd : idxs.Nodup) :
    ∀ acc t1, updateDbAux MB_tstep idxs acc = .ok t1 → ∀ i ∈ idxs,
      t1.mb_FoR_pos i = (MB_tstep i).for_pos ∧
      t1.mb_FoR_vel i = (MB_tstep i).for_vel ∧
      t1.mb_FoR_acc i = (MB_tstep i).for_acc ∧
      t1.mb_quat i = (MB_tstep i).quat := by
  induction idxs with
  | nil =>
      intro acc t1 _ i hi
      simp at hi
  | cons i0 rest ih =>
      intro acc t1 h i hi
      obtain ⟨hnotin, hnd'⟩ := List.nodup_cons.mp hnd
      unfold updateDbAux at h
      by_cases hm : dquatdtMatchB MB_tstep i0
      · rw [if_pos hm] at h
        rcases List.mem_cons.mp hi with rfl | hmem
        · obtain ⟨h1, h2, h3, h4⟩ := updateDbAux_frame MB_tstep rest _ _ h i hnotin
          rw [h1, h2, h3, h4]
          simp [setRow]
        · exact ih hnd' _ _ h i hmem
      · rw [if_neg hm] at h
        exact Except.noConfusion h

lemma mergeFold_qsize (MB_tstep : ℕ → TStep) (MB_beam : ℕ → Beam) (idxs : List ℕ) :
    ∀ p : TStep × ℕ,
      ((idxs.foldl (mergeBodyStep MB_tstep MB_beam) p).1).qsize = p.1.qsize := by
  induction idxs with
  | nil => intro p; rfl
  | cons i rest ih =>
      intro p
      rw [List.foldl_cons, ih]
      rfl

lemma mergeFold_db (MB_tstep : ℕ → TStep) (MB_beam : ℕ → Beam) (idxs : List ℕ) :
    ∀ p : TStep × ℕ,
      ((idxs.foldl (mergeBodyStep MB_tstep MB_beam) p).1).mb_FoR_pos =
        p.1.mb_FoR_pos ∧
      ((idxs.foldl (mergeBodyStep MB_tstep MB_beam) p).1).mb_FoR_vel =
        p.1.mb_FoR_vel ∧
      ((idxs.foldl (mergeBodyStep MB_tstep MB_beam) p).1).mb_FoR_acc =
        p.1.mb_FoR_acc ∧
      ((idxs.foldl (mergeBodyStep MB_tstep MB_beam) p).1).mb_quat = p.1.mb_quat := by
  induction idxs with
  | nil => intro p; exact ⟨rfl, rfl, rfl, rfl⟩
  | cons i rest ih =>
      intro p
      rw [List.foldl_cons]
      exact ih _

lemma mergeFold_dquatdt_frame (MB_tstep : ℕ → TStep) (MB_beam : ℕ → Beam)
    (idxs : List ℕ) :
    ∀ (p : TStep × ℕ) (r : ℕ), r ∉ idxs →
      ((idxs.foldl (mergeBodyStep MB_tstep MB_beam) p).1).mb_dquatdt r =
        p.1.mb_dquatdt r := by
  induction idxs with
  | nil => intro p r _; rfl
  | cons i rest ih =>
      intro p r hr
      have hri : r ≠ i := fun hc => hr (hc ▸ List.mem_cons_self i rest)
      have hrrest : r ∉ rest := fun hc => hr (List.mem_cons_of_mem i hc)
      rw [List.foldl_cons, ih _ r hrrest]
      simp [mergeBodyStep, setRow, hri]

lemma mergeFold_dquatdt_mem (MB_tstep : ℕ → TStep) (MB_beam : ℕ → Beam)
    (idxs : List ℕ) (hnd : idxs.Nodup) :
    ∀ (p : TStep × ℕ), ∀ i ∈ idxs,
      ((idxs.foldl (mergeBodyStep MB_tstep MB_beam) p).1).mb_dquatdt i =
        fun j => (MB_tstep i).dqddt ((MB_tstep i).qsize - 4 + j) := by
  induction idxs with
  | nil =>
      intro p i hi
      simp at hi
  | cons i0 rest ih =>
      intro p i hi
      obtain ⟨hnotin, hnd'⟩ := List.nodup_cons.mp hnd
      rw [List.foldl_cons]
      rcases List.mem_cons.mp hi with rfl | hmem
      · rw [mergeFold_dquatdt_frame MB_tstep MB_beam rest _ i hnotin]
        simp [mergeBodyStep, setRow]
      · exact ih hnd' _ i hmem

/-- C7: after every completed merge, the trailing 10 entries of the
composite `q`, `dqdt` and `dqddt` equal the trailing 10 entries of body 0's
corresponding vectors, and the composite `for_pos`, `for_vel`, `for_acc` and
`quat` fields equal body 0's fields — regardless of the frame state of every
other body. -/
theorem merge_trailing_state_from_body_zero (MB_tstep : ℕ → TStep)
    (MB_beam : ℕ → Beam) (num_bodies : ℕ) (tstep : TStep)
    (h10 : 10 ≤ tstep.qsize) :
    ∀ t', merge_multibody MB_tstep MB_beam num_bodies tstep = .ok t' →
      t'.qsize = tstep.qsize ∧
      (∀ k, k < 10 →
        t'.q (tstep.qsize - 10 + k) = (MB_tstep 0).q ((MB_tstep 0).qsize - 10 + k) ∧
        t'.dqdt (tstep.qsize - 10 + k) =
          (MB_tstep 0).dqdt ((MB_tstep 0).qsize - 10 + k) ∧
        t'.dqddt (tstep.qsize - 10 + k) =
          (MB_tstep 0).dqddt ((MB_tstep 0).qsize - 10 + k)) ∧
      t'.for_pos = (MB_tstep 0).for_pos ∧ t'.for_vel = (MB_tstep 0).for_vel ∧
      t'.for_acc = (MB_tstep 0).for_acc ∧ t'.quat = (MB_tstep 0).quat := by
  intro t' hres
  unfold merge_multibody at hres
  cases hup : update_mb_dB_before_merge tstep MB_tstep num_bodies with
  | error er =>
      rw [hup] at hres
      exact Except.noConfusion hres
  | ok t1 =>
      rw [hup] at hres
      dsimp only at hres
      obtain rfl := (Except.ok.inj hres).symm
      have hq1 : t1.qsize = tstep.qsize :=
        updateDbAux_qsize MB_tstep (List.range num_bodies) tstep t1 hup
      have hq2 : ((List.range num_bodies).foldl (mergeBodyStep MB_tstep MB_beam)
          (t1, 0)).1.qsize = tstep.qsize := by
        rw [mergeFold_qsize]
        exact hq1
      refine ⟨hq2, ?_, rfl, rfl, rfl, rfl⟩
      intro k hk
      refine ⟨?_, ?_, ?_⟩ <;>
      · simp only [setSeg]
        rw [hq2, if_pos (by omega)]
        congr 1
        omega

/-- C8: merge fails (the "Error in multibody storage" assertion) iff some
body's own `mb_dquatdt` row differs from the last 4 entries of its `dqddt`;
when they all match, merge completes and the composite database rows hold
each body's frame position/velocity/acceleration/quaternion and
quaternion-derivative. -/
theorem merge_assert_iff_dquatdt_consistent (MB_tstep : ℕ → TStep)
    (MB_beam : ℕ → Beam) (num_bodies : ℕ) (tstep : TStep) :
    ((∀ t', merge_multibody MB_tstep MB_beam num_bodies tstep ≠ .ok t') ↔
      ∃ i, i < num_bodies ∧ ∃ j, j < 4 ∧
        (MB_tstep i).mb_dquatdt i j ≠
          (MB_tstep i).dqddt ((MB_tstep i).qsize - 4 + j)) ∧
    (∀ t', merge_multibody MB_tstep MB_beam num_bodies tstep = .ok t' →
      ∀ i, i < num_bodies →
        t'.mb_FoR_pos i = (MB_tstep i).for_pos ∧
        t'.mb_FoR_vel i = (MB_tstep i).for_vel ∧
        t'.mb_FoR_acc i = (MB_tstep i).for_acc ∧
        t'.mb_quat i = (MB_tstep i).quat ∧
        ∀ j, j < 4 → t'.mb_dquatdt i j =
          (MB_tstep i).dqddt ((MB_tstep i).qsize - 4 + j)) := by
  have hmatch : ∀ i, dquatdtMatchB MB_tstep i = true ↔
      ∀ j, j < 4 → (MB_tstep i).mb_dquatdt i j =
        (MB_tstep i).dqddt ((MB_tstep i).qsize - 4 + j) := by
    intro i
    unfold dquatdtMatchB
    rw [List.all_eq_true]
    constructor
    · intro h j hj
      exact beq_iff_eq.mp (h j (List.mem_range.mpr hj))
    · intro h j hj
      exact beq_iff_eq.mpr (h j (List.mem_range.mp hj))
  have hok_iff : (∃ t', merge_multibody MB_tstep MB_beam num_bodies tstep = .ok t')
      ↔ ∀ i ∈ List.range num_bodies, dquatdtMatchB MB_tstep i = true := by
    constructor
    · rintro ⟨t', h⟩
      unfold merge_multibody at h
      cases hup : update_mb_dB_before_merge tstep MB_tstep num_bodies with
      | error er => rw [hup] at h; exact Except.noConfusion h
      | ok t1 =>
          exact (updateDbAux_ok_iff MB_tstep (List.range num_bodies) tstep).mp
            ⟨t1, hup⟩
    · intro hall
      obtain ⟨t1, hup⟩ :=
        (updateDbAux_ok_iff MB_tstep (List.range num_bodies) tstep).mpr hall
      unfold merge_multibody
      rw [show update_mb_dB_before_merge tstep MB_tstep num_bodies = .ok t1
        from hup]
      exact ⟨_, rfl⟩
  constructor
  · constructor
    · intro hfail
      by_contra hno
      push_neg at hno
      have hall : ∀ i ∈ List.range num_bodies, dquatdtMatchB MB_tstep i = true := by
        intro i hi
        exact (hmatch i).mpr fun j hj => hno i (List.mem_range.mp hi) j hj
      obtain ⟨t', ht'⟩ := hok_iff.mpr hall
      exact hfail t' ht'
    · rintro ⟨i, hi, j, hj, hne⟩ t' ht'
      have hall := hok_iff.mp ⟨t', ht'⟩
      exact hne ((hmatch i).mp (hall i (List.mem_range.mpr hi)) j hj)
  · intro t' hres i hi
    unfold merge_multibody at hres
    cases hup : update_mb_dB_before_merge tstep MB_tstep num_bodies with
    | error er =>
        rw [hup] at hres
        exact Except.noConfusion hres
    | ok t1 =>
        rw [hup] at hres
        dsimp only at hres
        obtain rfl := (Except.ok.inj hres).symm
        have hdb := mergeFold_db MB_tstep MB_beam (List.range num_bodies) (t1, 0)
        obtain ⟨hm1, hm2, hm3, hm4⟩ :=
          updateDbAux_mem MB_tstep (List.range num_bodies) (List.nodup_range _)
            tstep t1 hup i (List.mem_range.mpr hi)
        refine ⟨?_, ?_, ?_, ?_, ?_⟩
        · show ((List.range num_bodies).foldl (mergeBodyStep MB_tstep MB_beam)
            (t1, 0)).1.mb_FoR_pos i = _
          rw [hdb.1]
          exact hm1
        · show ((List.range num_bodies).foldl (mergeBodyStep MB_tstep MB_beam)
            (t1, 0)).1.mb_FoR_vel i = _
          rw [hdb.2.1]
          exact hm2
        · show ((List.range num_bodies).foldl (mergeBodyStep MB_tstep MB_beam)
            (t1, 0)).1.mb_FoR_acc i = _
          rw [hdb.2.2.1]
          exact hm3
        · show ((List.range num_bodies).foldl (mergeBodyStep MB_tstep MB_beam)
            (t1, 0)).1.mb_quat i = _
          rw [hdb.2.2.2]
          exact hm4
        · intro j hj
          show ((List.range num_bodies).foldl (mergeBodyStep MB_tstep MB_beam)
            (t1, 0)).1.mb_dquatdt i j = _
          rw [mergeFold_dquatdt_mem MB_tstep MB_beam (List.range num_bodies)
            (List.nodup_range _) (t1, 0) i (List.mem_range.mpr hi)]

/-- C7 witness: the trailing-state theorem applied to a concrete two-body
merge (both bodies the all-zero `constTStep`, whose quaternion-derivative
assertion holds). -/
theorem merge_trailing_state_from_body_zero_witness :
    10 ≤ constTStep.qsize ∧
    (∀ t', merge_multibody (fun _ => constTStep) (fun _ => constBeam) 2 constTStep
        = .ok t' →
      t'.qsize = constTStep.qsize ∧
      (∀ k, k < 10 →
        t'.q (constTStep.qsize - 10 + k) =
          constTStep.q (constTStep.qsize - 10 + k) ∧
        t'.dqdt (constTStep.qsize - 10 + k) =
          constTStep.dqdt (constTStep.qsize - 10 + k) ∧
        t'.dqddt (constTStep.qsize - 10 + k) =
          constTStep.dqddt (constTStep.qsize - 10 + k)) ∧
      t'.for_pos = constTStep.for_pos ∧ t'.for_vel = constTStep.for_vel ∧
      t'.for_acc = constTStep.for_acc ∧ t'.quat = constTStep.quat) :=
  ⟨by decide,
   merge_trailing_state_from_body_zero (fun _ => constTStep) (fun _ => constBeam)
     2 constTStep (by decide)⟩

/-- C8 witness: the assertion-iff theorem applied to the same concrete
two-body merge. -/
theorem merge_assert_iff_dquatdt_consistent_witness :
    ((∀ t', merge_multibody (fun _ => constTStep) (fun _ => constBeam) 2 constTStep
        ≠ .ok t') ↔
      ∃ i, i < 2 ∧ ∃ j, j < 4 ∧
        constTStep.mb_dquatdt i j ≠
          constTStep.dqddt (constTStep.qsize - 4 + j)) ∧
    (∀ t', merge_multibody (fun _ => constTStep) (fun _ => constBeam) 2 constTStep
        = .ok t' →
      ∀ i, i < 2 →
        t'.mb_FoR_pos i = constTStep.for_pos ∧
        t'.mb_FoR_vel i = constTStep.for_vel ∧
        t'.mb_FoR_acc i = constTStep.for_acc ∧
        t'.mb_quat i = constTStep.quat ∧
        ∀ j, j < 4 → t'.mb_dquatdt i j =
          constTStep.dqddt (constTStep.qsize - 4 + j)) :=
  merge_assert_iff_dquatdt_consistent (fun _ => constTStep) (fun _ => constBeam)
    2 constTStep
